import Mathlib

/-!
Verification development for the Concept-MRI MoE routing-telemetry core:
a shallow embedding, in Lean, of the session capture coordinator
(`integrated_capture_service.py`), the columnar batch writer
(`parquet_writer.py`), the record schemas (`schemas/routing.py`,
`schemas/tokens.py`, `schemas/features_pca128.py`) and the route/cluster
analysis engine (`expert_route_analysis.py`, `cluster_route_analysis.py`),
together with proofs about the embedded operations.

Modelling conventions:
* Python ints are `ℤ` (layers, ids, token positions) or `ℕ` for values that
  are counts by construction; floats are exact `ℚ` except where the code
  computes logarithms / square roots, which are modelled in `ℝ`.
* Python dicts are modelled either as association lists in insertion order
  (when the code later iterates them) or as total functions with the
  `dict.get(k, default)` default (when the code only looks keys up).
* Exceptions are `Option`/`Except`; external effects (the instrumented
  model, the tokenizer, parquet I/O, sklearn clusterers) are oracle
  parameters, since the spec places them out of scope.
-/

namespace ConceptMRI

/-! ## Session capture coordinator (`integrated_capture_service.py`)

`SessionState` and `SessionStatus` follow the dataclasses at the top of
`integrated_capture_service.py`.  The capture service owns a mutable
`SessionStatus` per session; we thread it explicitly. -/

inductive SessionState where
  | active
  | completed
  | failed
  | paused
deriving DecidableEq

structure SessionStatus where
  session_id : String
  state : SessionState
  total_pairs : ℕ
  completed_pairs : ℕ
  failed_pairs : ℕ
  error_message : Option String
deriving DecidableEq

/-- The `progress_percent` property of `SessionStatus`: `completed / total × 100`,
`0` when `total == 0`. -/
def SessionStatus.progress_percent (s : SessionStatus) : ℚ :=
  if s.total_pairs = 0 then 0
  else ((s.completed_pairs : ℚ) / (s.total_pairs : ℚ)) * 100

/-- The `create_session` operation: rejects empty word sets (`ValueError`,
modelled as `none`), otherwise builds an `ACTIVE` status whose `total_pairs`
is the size of the context×target cross product, with zero completed and
failed pairs.  (Metadata persistence is modelled by threading the word lists
to `capture_session_batch` directly, as the JSON file round-trips them.) -/
def create_session (session_id : String) (contexts targets : List String) :
    Option SessionStatus :=
  if contexts = [] ∨ targets = [] then none
  else some
    { session_id := session_id
      state := SessionState.active
      total_pairs := contexts.length * targets.length
      completed_pairs := 0
      failed_pairs := 0
      error_message := none }

/-- One iteration of the batch loop of `capture_session_batch`: the
`capture_single_pair` call for one (context, target) pair wrapped in the
loop's `try/except`.  Whether the probe capture succeeds is decided by the
environment (tokenizer, model forward pass, writers), modelled by the
oracle `ok`.  On success `completed_pairs` is incremented; on any exception
inside the capture body `failed_pairs` is incremented, the error message is
recorded, and the exception is re-raised — the batch loop catches it and
continues with the next pair.  If the session is not `ACTIVE` the body
raises before touching the counters, and the loop leaves the status
unchanged.  (We model the in-process path in which the session was created
by this service instance; the disk-restore branch of the source calls a
`_restore_session` helper.) -/
def capture_pair_in_batch (ok : String → String → Bool)
    (s : SessionStatus) (context target : String) : SessionStatus :=
  if s.state = SessionState.active then
    if ok context target then
      { s with completed_pairs := s.completed_pairs + 1 }
    else
      { s with failed_pairs := s.failed_pairs + 1
               error_message := some (context ++ "/" ++ target) }
  else s

/-- The `finalize_session` state update: all writers are flushed and closed,
the manifest is written, and the session state becomes `COMPLETED`.  (The
writer-failure path, which would set `FAILED`, is the batch writer's
concern, modelled separately in `BatchWriterState`.) -/
def finalize_session (s : SessionStatus) : SessionStatus :=
  { s with state := SessionState.completed }

/-- The `capture_session_batch` operation: run `capture_single_pair` over the
full context×target cross product sequentially (outer loop contexts, inner
loop targets), each pair protected by `try/except ... continue`, then
automatically finalize the session. -/
def capture_session_batch (ok : String → String → Bool)
    (contexts targets : List String) (s : SessionStatus) : SessionStatus :=
  finalize_session
    (contexts.foldl
      (fun acc context =>
        targets.foldl (fun acc2 target => capture_pair_in_batch ok acc2 context target) acc)
      s)

/-! ## Word-source aggregation (`_aggregate_word_sources`)

A mined word source is the `(words, category_label)` pair returned by
`_mine_from_source`; the Lexical Source Provider behind it is out of scope,
so sources enter the model already mined. -/

/-- The category list accumulated for the word `w` by
`_aggregate_word_sources`: the aggregation dict `category_assignments` read
at key `w`.  For each source whose word list contains `w`, the source's
label is appended unless already present (the inner `for word in words`
loop appends at most once per source because of the `not in` guard). -/
def aggregated_categories (sources : List (List String × String)) (w : String) :
    List String :=
  sources.foldl
    (fun acc s => if w ∈ s.1 ∧ s.2 ∉ acc then acc ++ [s.2] else acc) []

/-- The deduplicated word list `unique_words = list(set(all_words))` of
`_aggregate_word_sources`.  CPython leaves the element order of
`list(set(...))` unspecified; we model it as `dedup` of the concatenated
word lists, which is faithful for membership and multiplicity. -/
def aggregated_unique_words (sources : List (List String × String)) : List String :=
  (sources.flatMap (fun s => s.1)).dedup

theorem aggregated_categories_append (sources : List (List String × String))
    (s : List String × String) (w : String) :
    aggregated_categories (sources ++ [s]) w =
      if w ∈ s.1 ∧ s.2 ∉ aggregated_categories sources w then
        aggregated_categories sources w ++ [s.2]
      else aggregated_categories sources w := by
  simp [aggregated_categories, List.foldl_append]

theorem aggregated_categories_nodup (sources : List (List String × String))
    (w : String) : (aggregated_categories sources w).Nodup := by
  induction sources using List.reverseRecOn with
  | nil => simp [aggregated_categories]
  | append_singleton ss s ih =>
    rw [aggregated_categories_append]
    by_cases h : w ∈ s.1 ∧ s.2 ∉ aggregated_categories ss w
    · rw [if_pos h]
      exact List.Nodup.append ih (List.nodup_singleton _)
        (List.disjoint_singleton.mpr h.2)
    · rw [if_neg h]
      exact ih

theorem mem_aggregated_categories (sources : List (List String × String))
    (w lab : String) :
    lab ∈ aggregated_categories sources w ↔
      ∃ s ∈ sources, w ∈ s.1 ∧ s.2 = lab := by
  induction sources using List.reverseRecOn with
  | nil => simp [aggregated_categories]
  | append_singleton ss s ih =>
    rw [aggregated_categories_append]
    have hext : ∀ P : (List String × String) → Prop,
        (∃ t ∈ ss ++ [s], P t) ↔ (∃ t ∈ ss, P t) ∨ P s := by
      intro P
      constructor
      · rintro ⟨t, ht, hP⟩
        rcases List.mem_append.mp ht with h1 | h1
        · exact Or.inl ⟨t, h1, hP⟩
        · rcases List.mem_singleton.mp h1 with rfl
          exact Or.inr hP
      · rintro (⟨t, ht, hP⟩ | hP)
        · exact ⟨t, List.mem_append_left _ ht, hP⟩
        · exact ⟨s, List.mem_append_right _ (List.mem_singleton_self _), hP⟩
    by_cases h : w ∈ s.1 ∧ s.2 ∉ aggregated_categories ss w
    · rw [if_pos h, List.mem_append, List.mem_singleton, ih, hext]
      constructor
      · rintro (h1 | rfl)
        · exact Or.inl h1
        · exact Or.inr ⟨h.1, rfl⟩
      · rintro (h1 | ⟨_, rfl⟩)
        · exact Or.inl h1
        · exact Or.inr rfl
    · rw [if_neg h, ih, hext]
      constructor
      · exact Or.inl
      · rintro (h1 | ⟨hw, rfl⟩)
        · exact h1
        · rcases Decidable.not_and_iff_or_not.mp h with hw2 | hmem
          · exact absurd hw hw2
          · rw [ih] at hmem
            exact Decidable.not_not.mp hmem

/-- C4: during session creation, a word that appears in two or more word
sources keeps every category label it was mined under — the aggregated
category map at that word is a duplicate-free list containing exactly the
labels of the sources whose word lists contain it (no label overwrites
another) — and the word occurs exactly once in the deduplicated word
list. -/
theorem multi_source_word_keeps_all_category_labels
    (sources : List (List String × String)) (w : String)
    (hsrc : 2 ≤ (sources.countP (fun s => decide (w ∈ s.1)))) :
    (aggregated_categories sources w).Nodup ∧
    (∀ lab : String, lab ∈ aggregated_categories sources w ↔
      ∃ s ∈ sources, w ∈ s.1 ∧ s.2 = lab) ∧
    (aggregated_unique_words sources).count w = 1 := by
  refine ⟨aggregated_categories_nodup sources w,
          fun lab => mem_aggregated_categories sources w lab, ?_⟩
  have hmem : w ∈ sources.flatMap (fun s => s.1) := by
    have hpos : 0 < sources.countP (fun s => decide (w ∈ s.1)) := by omega
    rcases List.countP_pos_iff.mp hpos with ⟨s, hs, hws⟩
    exact List.mem_flatMap.mpr ⟨s, hs, by simpa using hws⟩
  have hmem' : w ∈ aggregated_unique_words sources := by
    simpa [aggregated_unique_words, List.mem_dedup] using hmem
  exact List.count_eq_one_of_mem (List.nodup_dedup _) hmem'

/-- Witness for `multi_source_word_keeps_all_category_labels` at a concrete
pair of sources that both mine the word "cat". -/
theorem multi_source_word_keeps_all_category_labels_witness :
    (2 ≤ ([(["cat"], "nouns"), (["cat", "dog"], "animals")].countP
        (fun s => decide ("cat" ∈ s.1)))) ∧
    ((aggregated_categories [(["cat"], "nouns"), (["cat", "dog"], "animals")] "cat").Nodup ∧
    (∀ lab : String,
      lab ∈ aggregated_categories [(["cat"], "nouns"), (["cat", "dog"], "animals")] "cat" ↔
      ∃ s ∈ [(["cat"], "nouns"), (["cat", "dog"], "animals")], "cat" ∈ s.1 ∧ s.2 = lab) ∧
    (aggregated_unique_words [(["cat"], "nouns"), (["cat", "dog"], "animals")]).count "cat" = 1) :=
  ⟨by decide,
   multi_source_word_keeps_all_category_labels _ _ (by decide)⟩

theorem capture_pair_in_batch_active (ok : String → String → Bool)
    (s : SessionStatus) (c t : String) (h : s.state = SessionState.active) :
    (capture_pair_in_batch ok s c t).state = SessionState.active ∧
    (capture_pair_in_batch ok s c t).completed_pairs +
      (capture_pair_in_batch ok s c t).failed_pairs =
      s.completed_pairs + s.failed_pairs + 1 ∧
    (capture_pair_in_batch ok s c t).total_pairs = s.total_pairs := by
  by_cases hok : ok c t = true <;>
    simp [capture_pair_in_batch, h, hok] <;> omega

theorem batch_inner_fold_invariant (ok : String → String → Bool)
    (targets : List String) (c : String) (s : SessionStatus)
    (h : s.state = SessionState.active) :
    (targets.foldl (fun acc t => capture_pair_in_batch ok acc c t) s).state =
        SessionState.active ∧
    (targets.foldl (fun acc t => capture_pair_in_batch ok acc c t) s).completed_pairs +
      (targets.foldl (fun acc t => capture_pair_in_batch ok acc c t) s).failed_pairs =
      s.completed_pairs + s.failed_pairs + targets.length ∧
    (targets.foldl (fun acc t => capture_pair_in_batch ok acc c t) s).total_pairs =
      s.total_pairs := by
  induction targets generalizing s with
  | nil => exact ⟨h, by simp, rfl⟩
  | cons t ts ih =>
    obtain ⟨h1, h2, h3⟩ := capture_pair_in_batch_active ok s c t h
    obtain ⟨ih1, ih2, ih3⟩ := ih (capture_pair_in_batch ok s c t) h1
    refine ⟨ih1, ?_, by simp [ih3, h3]⟩
    simp only [List.foldl_cons, List.length_cons] at ih2 ⊢
    omega

theorem batch_outer_fold_invariant (ok : String → String → Bool)
    (contexts targets : List String) (s : SessionStatus)
    (h : s.state = SessionState.active) :
    (contexts.foldl
        (fun acc c => targets.foldl (fun acc2 t => capture_pair_in_batch ok acc2 c t) acc)
        s).state = SessionState.active ∧
    (contexts.foldl
        (fun acc c => targets.foldl (fun acc2 t => capture_pair_in_batch ok acc2 c t) acc)
        s).completed_pairs +
      (contexts.foldl
        (fun acc c => targets.foldl (fun acc2 t => capture_pair_in_batch ok acc2 c t) acc)
        s).failed_pairs =
      s.completed_pairs + s.failed_pairs + contexts.length * targets.length ∧
    (contexts.foldl
        (fun acc c => targets.foldl (fun acc2 t => capture_pair_in_batch ok acc2 c t) acc)
        s).total_pairs = s.total_pairs := by
  induction contexts generalizing s with
  | nil => exact ⟨h, by simp, rfl⟩
  | cons c cs ih =>
    obtain ⟨h1, h2, h3⟩ := batch_inner_fold_invariant ok targets c s h
    obtain ⟨ih1, ih2, ih3⟩ :=
      ih (targets.foldl (fun acc2 t => capture_pair_in_batch ok acc2 c t) s) h1
    refine ⟨ih1, ?_, by simp [ih3, h3]⟩
    simp only [List.foldl_cons, List.length_cons] at ih2 ⊢
    rw [ih2, h2]
    ring

/-- C1: for a session created by `create_session` and run through
`capture_session_batch`, whatever per-pair outcomes the environment
produces (each failed capture is caught, counted in `failed_pairs`, and the
batch continues), the session is automatically finalized after every pair
of the cross product has been attempted: `completed_pairs + failed_pairs`
equals `total_pairs` (the full cross-product size) and the final state is
`COMPLETED`. -/
theorem capture_session_batch_partial_failure
    (ok : String → String → Bool) (sid : String)
    (contexts targets : List String) (s₀ : SessionStatus)
    (hcreate : create_session sid contexts targets = some s₀) :
    (capture_session_batch ok contexts targets s₀).completed_pairs +
      (capture_session_batch ok contexts targets s₀).failed_pairs =
      s₀.total_pairs ∧
    (capture_session_batch ok contexts targets s₀).total_pairs =
      contexts.length * targets.length ∧
    (capture_session_batch ok contexts targets s₀).state =
      SessionState.completed := by
  have hne : ¬ (contexts = [] ∨ targets = []) := by
    by_contra h
    simp [create_session, h] at hcreate
  have hs₀ : s₀ = { session_id := sid
                    state := SessionState.active
                    total_pairs := contexts.length * targets.length
                    completed_pairs := 0
                    failed_pairs := 0
                    error_message := none } := by
    unfold create_session at hcreate
    rw [if_neg hne] at hcreate
    exact (Option.some.inj hcreate).symm
  obtain ⟨h1, h2, h3⟩ := batch_outer_fold_invariant ok contexts targets s₀
    (by rw [hs₀])
  refine ⟨?_, ?_, ?_⟩
  · simp only [capture_session_batch, finalize_session]
    rw [h2, hs₀]
    simp
  · simp only [capture_session_batch, finalize_session]
    rw [h3, hs₀]
  · simp [capture_session_batch, finalize_session]

/-- Witness for `capture_session_batch_partial_failure`: the spec's
end-to-end scenario — contexts `["the"]`, targets `["cat", "dog"]`, with the
capture of `("the", "dog")` failing. -/
theorem capture_session_batch_partial_failure_witness :
    (create_session "s1" ["the"] ["cat", "dog"] = some
      { session_id := "s1", state := SessionState.active, total_pairs := 2,
        completed_pairs := 0, failed_pairs := 0, error_message := none }) ∧
    ((capture_session_batch (fun _ t => t = "cat") ["the"] ["cat", "dog"]
      { session_id := "s1", state := SessionState.active, total_pairs := 2,
        completed_pairs := 0, failed_pairs := 0, error_message := none }).completed_pairs +
     (capture_session_batch (fun _ t => t = "cat") ["the"] ["cat", "dog"]
      { session_id := "s1", state := SessionState.active, total_pairs := 2,
        completed_pairs := 0, failed_pairs := 0, error_message := none }).failed_pairs = 2 ∧
     (capture_session_batch (fun _ t => t = "cat") ["the"] ["cat", "dog"]
      { session_id := "s1", state := SessionState.active, total_pairs := 2,
        completed_pairs := 0, failed_pairs := 0, error_message := none }).total_pairs = 1 * 2 ∧
     (capture_session_batch (fun _ t => t = "cat") ["the"] ["cat", "dog"]
      { session_id := "s1", state := SessionState.active, total_pairs := 2,
        completed_pairs := 0, failed_pairs := 0, error_message := none }).state =
        SessionState.completed) :=
  ⟨by decide,
   capture_session_batch_partial_failure (fun _ t => t = "cat") "s1"
    ["the"] ["cat", "dog"] _ (by decide)⟩

/-! ## Columnar batch writer (`core/parquet_writer.py`)

`BatchWriter` buffers dataclass records in `self.records` and appends them
to a parquet file on `flush`.  The parquet file contents are modelled as
the list of rows already persisted; whether the arrow conversion and
`write_table` succeed on a given call is the environment's choice, passed
as the `ok` flag.  Each operation returns the post-call state together
with a flag that is `false` exactly when the Python method raised. -/

structure BatchWriterState (α : Type) where
  file : List α
  records : List α
  batch_size : ℕ

/-- The `flush` method: an empty buffer returns immediately; otherwise the
buffered records are appended after all previously flushed rows (the
existing table is read back and the batch concatenated after it) and the
buffer is cleared — but only on success.  On failure the exception is
re-raised and neither the buffer nor the file is touched ("don't crash -
just keep records for retry"). -/
def BatchWriterState.flush {α : Type} (ok : Bool) (s : BatchWriterState α) :
    BatchWriterState α × Bool :=
  if s.records.isEmpty then (s, true)
  else if ok then ({ s with file := s.file ++ s.records, records := [] }, true)
  else (s, false)

/-- The `add_record` method: append the record to the buffer, then
auto-flush when the buffer has reached `batch_size`. -/
def BatchWriterState.add_record {α : Type} (ok : Bool) (s : BatchWriterState α)
    (r : α) : BatchWriterState α × Bool :=
  let s2 := { s with records := s.records ++ [r] }
  if s.batch_size ≤ s2.records.length then s2.flush ok else (s2, true)

/-- A caller-visible operation on a batch writer, tagged with the
environment's success verdict for any write it performs. -/
inductive WriterOp (α : Type) where
  | add (r : α) (ok : Bool)
  | flushCall (ok : Bool)

def runWriterOp {α : Type} (s : BatchWriterState α) : WriterOp α → BatchWriterState α
  | WriterOp.add r ok => (s.add_record ok r).1
  | WriterOp.flushCall ok => (s.flush ok).1

def runWriterOps {α : Type} (s : BatchWriterState α) (ops : List (WriterOp α)) :
    BatchWriterState α :=
  ops.foldl runWriterOp s

/-- The records handed to `add_record` over a sequence of operations, in
call order. -/
def addedRecords {α : Type} : List (WriterOp α) → List α
  | [] => []
  | WriterOp.add r _ :: t => r :: addedRecords t
  | WriterOp.flushCall _ :: t => addedRecords t

theorem flush_file_append {α : Type} (ok : Bool) (s : BatchWriterState α) :
    ((s.flush ok).1).file ++ ((s.flush ok).1).records = s.file ++ s.records := by
  unfold BatchWriterState.flush
  by_cases h : s.records.isEmpty
  · simp [h, List.isEmpty_iff.mp h]
  · by_cases hok : ok = true <;> simp [h, hok]

theorem add_record_file_append {α : Type} (ok : Bool) (s : BatchWriterState α)
    (r : α) :
    ((s.add_record ok r).1).file ++ ((s.add_record ok r).1).records =
      s.file ++ s.records ++ [r] := by
  unfold BatchWriterState.add_record
  by_cases h : s.batch_size ≤ s.records.length + 1
  · simp only [List.length_append, List.length_singleton, h, if_pos]
    rw [flush_file_append]
    simp
  · simp only [List.length_append, List.length_singleton, h, if_neg]
    simp [List.append_assoc]

theorem runWriterOps_no_record_dropped {α : Type} (ops : List (WriterOp α))
    (s : BatchWriterState α) :
    (runWriterOps s ops).file ++ (runWriterOps s ops).records =
      s.file ++ s.records ++ addedRecords ops := by
  induction ops generalizing s with
  | nil => simp [runWriterOps, addedRecords]
  | cons op t ih =>
    cases op with
    | add r ok =>
      simp only [runWriterOps, List.foldl_cons, addedRecords, runWriterOp]
      rw [show forall s2 : BatchWriterState _, List.foldl runWriterOp s2 t = runWriterOps s2 t from fun _ => rfl]
      rw [ih, add_record_file_append]
      simp
    | flushCall ok =>
      simp only [runWriterOps, List.foldl_cons, addedRecords, runWriterOp]
      rw [show forall s2 : BatchWriterState _, List.foldl runWriterOp s2 t = runWriterOps s2 t from fun _ => rfl]
      rw [ih, flush_file_append]

/-- C5: a failing flush raises (flag `false`) with the unflushed buffer and
the file preserved unchanged for a caller-driven retry; a (subsequent)
successful flush persists every buffered record after all previously
flushed rows and only then clears the buffer; and across any sequence of
`add_record`/`flush` calls with any pattern of write failures, the rows in
the file together with the still-buffered records are exactly the initial
contents plus every record ever added, in order — no record is silently
dropped. -/
theorem batch_writer_flush_failure_policy {α : Type} (s : BatchWriterState α)
    (ops : List (WriterOp α)) (h : s.records ≠ []) :
    s.flush false = (s, false) ∧
    ((s.flush true).1.file = s.file ++ s.records ∧
      (s.flush true).1.records = []) ∧
    ((runWriterOps s ops).file ++ (runWriterOps s ops).records =
      s.file ++ s.records ++ addedRecords ops) := by
  have hne : s.records.isEmpty = false := by
    simpa [List.isEmpty_iff] using h
  refine ⟨?_, ⟨?_, ?_⟩, runWriterOps_no_record_dropped ops s⟩
  · simp [BatchWriterState.flush, hne]
  · simp [BatchWriterState.flush, hne]
  · simp [BatchWriterState.flush, hne]

/-- Witness for `batch_writer_flush_failure_policy`: a writer holding one
flushed row and one buffered record, followed by an add and a successful
flush. -/
theorem batch_writer_flush_failure_policy_witness :
    (BatchWriterState.mk [1] [2] 10).records ≠ ([] : List ℕ) ∧
    ((BatchWriterState.mk [1] [2] 10).flush false = ((BatchWriterState.mk [1] [2] 10), false) ∧
    (((BatchWriterState.mk [1] [2] 10).flush true).1.file = [1] ++ [2] ∧
      ((BatchWriterState.mk [1] [2] 10).flush true).1.records = []) ∧
    ((runWriterOps (BatchWriterState.mk [1] [2] 10)
        [WriterOp.add 3 false, WriterOp.flushCall true]).file ++
      (runWriterOps (BatchWriterState.mk [1] [2] 10)
        [WriterOp.add 3 false, WriterOp.flushCall true]).records =
      [1] ++ [2] ++ addedRecords [WriterOp.add 3 false, WriterOp.flushCall true])) :=
  ⟨by decide,
   batch_writer_flush_failure_policy (BatchWriterState.mk [1] [2] 10)
    [WriterOp.add 3 false, WriterOp.flushCall true] (by decide)⟩

/-! ## Routing schema (`schemas/routing.py`)

`RoutingRecord` as consumed throughout the system.  `schemas/routing.py`
itself omits a `token_position` field, while both its producer
(`integrated_capture_service.py` passes `token_position` to
`create_routing_record`) and every consumer (`expert_route_analysis.py`
reads `record.token_position`) use one, and the spec's data model declares
one record per (probe, layer, token_position); we therefore include the
field, threaded through construction unchanged. -/

structure RoutingRecord where
  probe_id : String
  layer : ℤ
  token_position : ℤ
  expert_top4_ids : List ℤ
  expert_top4_weights : List ℚ
  expert_top1_id : ℤ
  expert_top1_weight : ℚ
  gate_entropy : ℝ
  routing_aux_loss : ℚ

/-- Accumulator loop for `argmaxIdx`: `i` is the index of the next element,
`best`/`bv` the index and value of the running first maximum (updated only
on a strictly greater value, so the first maximum wins). -/
def argmaxIdxAux : List ℚ → ℕ → ℕ → ℚ → ℕ
  | [], _, best, _ => best
  | x :: t, i, best, bv =>
    if bv < x then argmaxIdxAux t (i + 1) i x else argmaxIdxAux t (i + 1) best bv

/-- The first index of the maximum element, `np.argmax` on a non-empty
vector (`np.argmax` returns the first occurrence of the maximum). -/
def argmaxIdx : List ℚ → ℕ
  | [] => 0
  | x :: t => argmaxIdxAux t 1 0 x

/-- The comparison `np.isclose(a, b, rtol=1e-6)` with the default
`atol=1e-8`: `|a - b| <= atol + rtol * |b|`. -/
def np_isclose (a b : ℚ) : Prop :=
  |a - b| ≤ 1 / 100000000 + (1 / 1000000) * |b|

instance (a b : ℚ) : Decidable (np_isclose a b) := by
  unfold np_isclose
  infer_instance

/-- The `__post_init__` validation of `RoutingRecord`: array lengths, layer
range, expert-id range, and consistency of the top-1 extraction with the
first maximum-weight entry of the top-4 arrays — exact equality for the id,
`np.isclose` for the weight.  A record violating any check is rejected
(`ValueError`). -/
def routingRecordValid (r : RoutingRecord) : Prop :=
  r.expert_top4_ids.length = 4 ∧
  r.expert_top4_weights.length = 4 ∧
  0 ≤ r.layer ∧ r.layer ≤ 23 ∧
  (∀ eid ∈ r.expert_top4_ids, 0 ≤ eid ∧ eid ≤ 31) ∧
  r.expert_top1_id = r.expert_top4_ids.getD (argmaxIdx r.expert_top4_weights) 0 ∧
  np_isclose r.expert_top1_weight
    (r.expert_top4_weights.getD (argmaxIdx r.expert_top4_weights) 0)

instance (r : RoutingRecord) : Decidable (routingRecordValid r) := by
  unfold routingRecordValid
  infer_instance

/-- Stable ascending `np.argsort` over a weight vector: the indices
`0..len-1` ordered by their weights.  (numpy's default sort leaves the
relative order of ties unspecified; the properties proved below are
independent of the tie order.) -/
def argsortAsc (ws : List ℚ) : List ℕ :=
  (List.range ws.length).insertionSort (fun i j => ws.getD i 0 ≤ ws.getD j 0)

/-- The gate entropy computed by `create_routing_record`:
`-sum(w * log(w + 1e-8))` over the full 32-weight vector. -/
noncomputable def gate_entropy_of (ws : List ℚ) : ℝ :=
  -((ws.map (fun w : ℚ => (Rat.cast w : ℝ) *
      Real.log ((Rat.cast w : ℝ) + 1 / 100000000))).sum)

/-- The top-4 expert indices of `create_routing_record`:
`np.argsort(routing_weights)[-4:][::-1]`. -/
def top4Indices (ws : List ℚ) : List ℕ :=
  ((argsortAsc ws).drop ((argsortAsc ws).length - 4)).reverse

/-- The `create_routing_record` factory: rejects weight vectors that are
not 32 long, takes the top-4 expert indices `np.argsort(ws)[-4:][::-1]`
(descending by weight), extracts the top-1 as the first entry, and computes
the gate entropy. -/
noncomputable def create_routing_record (probe_id : String)
    (layer token_position : ℤ) (routing_weights : List ℚ)
    (routing_aux_loss : ℚ) : Option RoutingRecord :=
  if routing_weights.length ≠ 32 then none
  else
    let ids := (top4Indices routing_weights).map (fun i => Int.ofNat i)
    let wts := (top4Indices routing_weights).map (fun i => routing_weights.getD i 0)
    some
      { probe_id := probe_id
        layer := layer
        token_position := token_position
        expert_top4_ids := ids
        expert_top4_weights := wts
        expert_top1_id := ids.getD 0 0
        expert_top1_weight := wts.getD 0 0
        gate_entropy := gate_entropy_of routing_weights
        routing_aux_loss := routing_aux_loss }

/-- The `routing_confidence` method: `1 - gate_entropy / log(32)` (32 is
the fixed expert count of the captured model). -/
noncomputable def RoutingRecord.routing_confidence (r : RoutingRecord) : ℝ :=
  1 - r.gate_entropy / Real.log 32

/-- A concrete record accepted by `__post_init__` whose
`expert_top1_weight` differs from the maximum entry of
`expert_top4_weights` by `1e-9`, inside the `np.isclose` tolerance. -/
def nearTop1Record : RoutingRecord :=
  { probe_id := "p"
    layer := 0
    token_position := 1
    expert_top4_ids := [0, 1, 2, 3]
    expert_top4_weights := [2 / 5, 3 / 10, 1 / 5, 1 / 10]
    expert_top1_id := 0
    expert_top1_weight := 2 / 5 + 1 / 1000000000
    gate_entropy := 0
    routing_aux_loss := 0 }

/-- Counterexample to C9 as stated: `nearTop1Record` passes the
construction-time validation although its `expert_top1_weight` does not
equal the maximum-weight entry `2/5` of its top-4 array — the weight check
is `np.isclose`, not equality, so a violating record is not rejected. -/
theorem routing_top1_exact_equality_fails :
    routingRecordValid nearTop1Record ∧
    (2 / 5 : ℚ) ∈ nearTop1Record.expert_top4_weights ∧
    (∀ x ∈ nearTop1Record.expert_top4_weights, x ≤ 2 / 5) ∧
    nearTop1Record.expert_top1_weight ≠ 2 / 5 := by
  have hargmax : argmaxIdx nearTop1Record.expert_top4_weights = 0 := by
    norm_num [nearTop1Record, argmaxIdx, argmaxIdxAux]
  refine ⟨⟨rfl, rfl, le_refl 0, by norm_num [nearTop1Record], by norm_num [nearTop1Record], ?_, ?_⟩,
    by norm_num [nearTop1Record], by norm_num [nearTop1Record], by norm_num [nearTop1Record]⟩
  · rw [hargmax]
    rfl
  · rw [hargmax]
    show |(2 / 5 + 1 / 1000000000 : ℚ) - 2 / 5| ≤ 1 / 100000000 + (1 / 1000000) * |(2 / 5 : ℚ)|
    rw [show (2 / 5 + 1 / 1000000000 : ℚ) - 2 / 5 = 1 / 1000000000 by ring,
      abs_of_pos (by norm_num : (0 : ℚ) < 1 / 1000000000),
      abs_of_pos (by norm_num : (0 : ℚ) < 2 / 5)]
    norm_num

theorem argmaxIdxAux_spec (t : List ℚ) :
    ∀ (l : List ℚ) (best : ℕ) (bv : ℚ), best < l.length →
      l.getD best 0 = bv → (∀ x ∈ l, x ≤ bv) →
      argmaxIdxAux t l.length best bv < (l ++ t).length ∧
      ∀ x ∈ l ++ t, x ≤ (l ++ t).getD (argmaxIdxAux t l.length best bv) 0 := by
  induction t with
  | nil =>
    intro l best bv hbest hbv hmax
    simp only [argmaxIdxAux, List.append_nil]
    exact ⟨hbest, fun x hx => by rw [hbv]; exact hmax x hx⟩
  | cons x t ih =>
    intro l best bv hbest hbv hmax
    have hlen : (l ++ [x]).length = l.length + 1 := by simp
    have hassoc : (l ++ [x]) ++ t = l ++ x :: t := by simp
    by_cases hlt : bv < x
    · have h1 : (l ++ [x]).getD l.length 0 = x := by
        rw [List.getD_append_right l [x] 0 l.length (le_refl l.length)]
        simp
      have h2 : ∀ y ∈ l ++ [x], y ≤ x := by
        intro y hy
        rcases List.mem_append.mp hy with h | h
        · exact le_of_lt (lt_of_le_of_lt (hmax y h) hlt)
        · rcases List.mem_singleton.mp h with rfl
          exact le_refl _
      have := ih (l ++ [x]) l.length x (by omega) h1 h2
      rw [hlen, hassoc] at this
      simpa [argmaxIdxAux, hlt] using this
    · have h1 : (l ++ [x]).getD best 0 = bv := by
        rw [List.getD_append l [x] 0 best hbest]
        exact hbv
      have h2 : ∀ y ∈ l ++ [x], y ≤ bv := by
        intro y hy
        rcases List.mem_append.mp hy with h | h
        · exact hmax y h
        · rcases List.mem_singleton.mp h with rfl
          exact le_of_not_lt hlt
      have := ih (l ++ [x]) best bv (by omega) h1 h2
      rw [hlen, hassoc] at this
      simpa [argmaxIdxAux, hlt] using this

theorem argmaxIdx_spec (l : List ℚ) (h : l ≠ []) :
    argmaxIdx l < l.length ∧
    ∀ x ∈ l, x ≤ l.getD (argmaxIdx l) 0 := by
  cases l with
  | nil => exact absurd rfl h
  | cons x t =>
    have := argmaxIdxAux_spec t [x] 0 x (by simp) (by simp) (by simp)
    simpa [argmaxIdx] using this

theorem routing_valid_top1_near_argmax (r : RoutingRecord)
    (h : routingRecordValid r) :
    ∃ i, i < 4 ∧
      r.expert_top1_id = r.expert_top4_ids.getD i 0 ∧
      (∀ x ∈ r.expert_top4_weights, x ≤ r.expert_top4_weights.getD i 0) ∧
      |r.expert_top1_weight - r.expert_top4_weights.getD i 0| ≤
        1 / 100000000 + (1 / 1000000) * |r.expert_top4_weights.getD i 0| := by
  obtain ⟨hlen1, hlen2, _, _, _, hid, hw⟩ := h
  have hne : r.expert_top4_weights ≠ [] := by
    intro hnil
    rw [hnil] at hlen2
    simp at hlen2
  obtain ⟨hlt, hmax⟩ := argmaxIdx_spec r.expert_top4_weights hne
  exact ⟨argmaxIdx r.expert_top4_weights, hlen2 ▸ hlt, hid, hmax, hw⟩

theorem argsortAsc_perm (ws : List ℚ) :
    List.Perm (argsortAsc ws) (List.range ws.length) :=
  List.perm_insertionSort _ _

theorem argsortAsc_length (ws : List ℚ) :
    (argsortAsc ws).length = ws.length := by
  rw [(argsortAsc_perm ws).length_eq, List.length_range]

theorem argsortAsc_sorted (ws : List ℚ) :
    List.Sorted (fun i j => ws.getD i 0 ≤ ws.getD j 0) (argsortAsc ws) := by
  haveI : IsTotal ℕ (fun i j => ws.getD i 0 ≤ ws.getD j 0) :=
    ⟨fun a b => le_total _ _⟩
  haveI : IsTrans ℕ (fun i j => ws.getD i 0 ≤ ws.getD j 0) :=
    ⟨fun _ _ _ h1 h2 => le_trans h1 h2⟩
  exact List.sorted_insertionSort _ _

theorem top4Indices_length (ws : List ℚ) (h : ws.length = 32) :
    (top4Indices ws).length = 4 := by
  simp [top4Indices, argsortAsc_length, h]

theorem top4Indices_sorted (ws : List ℚ) :
    List.Pairwise (fun i j => ws.getD j 0 ≤ ws.getD i 0) (top4Indices ws) := by
  rw [top4Indices, List.pairwise_reverse]
  exact List.Pairwise.sublist (List.drop_sublist _ _) (argsortAsc_sorted ws)

theorem top4Indices_mem (ws : List ℚ) (i : ℕ) (h : i ∈ top4Indices ws) :
    i < ws.length := by
  rw [top4Indices, List.mem_reverse] at h
  have h2 : i ∈ argsortAsc ws := (List.drop_sublist _ _).subset h
  have h3 : i ∈ List.range ws.length := (argsortAsc_perm ws).subset h2
  exact List.mem_range.mp h3

/-- C9 (amended): (a) every `RoutingRecord` accepted by the construction-time
validation has `expert_top1_id` equal to the id at an index of the top-4
arrays holding a maximum weight, and `expert_top1_weight` equal to that
maximum weight up to the `np.isclose` tolerance `1e-8 + 1e-6·|max|` — exact
weight equality is not enforced; and (b) a record built by
`create_routing_record` from any 32-element weight vector has its top-4 ids
and weights ordered descending by weight, each weight being the input
weight of the corresponding id, with the top-1 fields equal to the first
entries. -/
theorem routing_top1_consistency :
    (∀ r : RoutingRecord, routingRecordValid r →
      ∃ i, i < 4 ∧
        r.expert_top1_id = r.expert_top4_ids.getD i 0 ∧
        (∀ x ∈ r.expert_top4_weights, x ≤ r.expert_top4_weights.getD i 0) ∧
        |r.expert_top1_weight - r.expert_top4_weights.getD i 0| ≤
          1 / 100000000 + (1 / 1000000) * |r.expert_top4_weights.getD i 0|) ∧
    (∀ (pid : String) (layer pos : ℤ) (ws : List ℚ) (aux : ℚ),
      ws.length = 32 →
      ∃ rec, create_routing_record pid layer pos ws aux = some rec ∧
        rec.expert_top4_ids.length = 4 ∧
        rec.expert_top4_weights.length = 4 ∧
        List.Pairwise (fun a b => b ≤ a) rec.expert_top4_weights ∧
        rec.expert_top1_id = rec.expert_top4_ids.getD 0 0 ∧
        rec.expert_top1_weight = rec.expert_top4_weights.getD 0 0 ∧
        (∀ eid ∈ rec.expert_top4_ids, 0 ≤ eid ∧ eid < 32) ∧
        (∀ k < 4, rec.expert_top4_weights.getD k 0 =
          ws.getD (rec.expert_top4_ids.getD k 0).toNat 0)) := by
  constructor
  · exact routing_valid_top1_near_argmax
  · intro pid layer pos ws aux hlen
    have hlen4 : (top4Indices ws).length = 4 := top4Indices_length ws hlen
    have hcreate : create_routing_record pid layer pos ws aux = some
        { probe_id := pid
          layer := layer
          token_position := pos
          expert_top4_ids := (top4Indices ws).map (fun i => Int.ofNat i)
          expert_top4_weights := (top4Indices ws).map (fun i => ws.getD i 0)
          expert_top1_id := ((top4Indices ws).map (fun i => Int.ofNat i)).getD 0 0
          expert_top1_weight := ((top4Indices ws).map (fun i => ws.getD i 0)).getD 0 0
          gate_entropy := gate_entropy_of ws
          routing_aux_loss := aux } := by
      unfold create_routing_record
      rw [if_neg (by rw [hlen]; exact fun h => h rfl)]
    refine ⟨_, hcreate, ?_, ?_, ?_, rfl, rfl, ?_, ?_⟩
    · simp [hlen4]
    · simp [hlen4]
    · exact List.pairwise_map.mpr (top4Indices_sorted ws)
    · intro eid heid
      simp only [List.mem_map] at heid
      obtain ⟨i, hi, rfl⟩ := heid
      have h32 := top4Indices_mem ws i hi
      simp only [Int.ofNat_eq_natCast]
      omega
    · intro k hk
      have hk1 : k < (top4Indices ws).length := by omega
      have hids : ((top4Indices ws).map (fun i => Int.ofNat i)).getD k 0 =
          Int.ofNat ((top4Indices ws).getD k 0) := by
        rw [List.getD_eq_getElem _ _ (by simpa using hk1),
          List.getD_eq_getElem _ _ hk1, List.getElem_map]
      have hwts : ((top4Indices ws).map (fun i => ws.getD i 0)).getD k 0 =
          ws.getD ((top4Indices ws).getD k 0) 0 := by
        rw [List.getD_eq_getElem _ _ (by simpa using hk1),
          List.getD_eq_getElem _ _ hk1, List.getElem_map]
      show ((top4Indices ws).map (fun i => ws.getD i 0)).getD k 0 =
        ws.getD ((((top4Indices ws).map (fun i => Int.ofNat i)).getD k 0).toNat) 0
      rw [hwts, hids]
      rfl

/-- Witness for `routing_top1_consistency`: part (a) at the concrete valid
record `nearTop1Record`, part (b) at a concrete 32-element weight vector. -/
theorem routing_top1_consistency_witness :
    (routingRecordValid nearTop1Record ∧
      (List.replicate 32 (0 : ℚ)).length = 32) ∧
    ((∃ i, i < 4 ∧
        nearTop1Record.expert_top1_id = nearTop1Record.expert_top4_ids.getD i 0 ∧
        (∀ x ∈ nearTop1Record.expert_top4_weights,
          x ≤ nearTop1Record.expert_top4_weights.getD i 0) ∧
        |nearTop1Record.expert_top1_weight -
            nearTop1Record.expert_top4_weights.getD i 0| ≤
          1 / 100000000 +
            (1 / 1000000) * |nearTop1Record.expert_top4_weights.getD i 0|) ∧
     (∃ rec, create_routing_record "p" 0 1
          (List.replicate 32 (0 : ℚ)) 0 = some rec ∧
        rec.expert_top4_ids.length = 4 ∧
        rec.expert_top4_weights.length = 4 ∧
        List.Pairwise (fun a b => b ≤ a) rec.expert_top4_weights ∧
        rec.expert_top1_id = rec.expert_top4_ids.getD 0 0 ∧
        rec.expert_top1_weight = rec.expert_top4_weights.getD 0 0 ∧
        (∀ eid ∈ rec.expert_top4_ids, 0 ≤ eid ∧ eid < 32) ∧
        (∀ k < 4, rec.expert_top4_weights.getD k 0 =
          (List.replicate 32 (0 : ℚ)).getD
            (rec.expert_top4_ids.getD k 0).toNat 0))) := by
  have hv : routingRecordValid nearTop1Record :=
    routing_top1_exact_equality_fails.1
  have hl : (List.replicate 32 (0 : ℚ)).length = 32 := List.length_replicate 32 0
  exact ⟨⟨hv, hl⟩,
    routing_top1_consistency.1 nearTop1Record hv,
    routing_top1_consistency.2 "p" 0 1 _ 0 hl⟩

/-! ## Route/cluster analysis engine — shared data model

`TokenRecord` is `schemas/tokens.py`.  Route signatures are built as
strings `L<layer>E<id>` (or `L<layer>C<id>`) joined by the arrow separator
and later re-parsed by splitting; since that rendering is injective in the
(layer, id) sequence, routes are keyed here by their parsed form
`Sig = List (ℤ × ℤ)`, with the string rendering kept as a separate
function (`highway_signature` below) for the signature-level claims. -/

structure TokenRecord where
  probe_id : String
  context_text : String
  target_text : String
  context_token_id : ℤ
  target_token_id : ℤ
deriving DecidableEq

/-- One entry of a route's `tokens` list: the
`{"context", "target", "probe_id"}` dict appended during route
extraction. -/
structure TokenInfo where
  context : String
  target : String
  probe_id : String
deriving DecidableEq

/-- A route signature in parsed form: the (layer, id) pairs in the order
they are joined into the signature string. -/
abbrev Sig := List (ℤ × ℤ)

/-- The per-signature aggregate built by route extraction: token list,
occurrence count, and the average of the per-probe confidence scores. -/
structure RouteInfo where
  tokens : List TokenInfo
  count : ℕ
  avg_confidence : ℝ

/-! ### Top-N selection (`_analyze_top_routes`, identical in
`expert_route_analysis.py` and `cluster_route_analysis.py`) -/

/-- Python's `sorted(routes.items(), key=lambda x: x[1]["count"],
reverse=True)`: a stable descending sort by occurrence count (CPython's
sort is stable, and `reverse=True` reverses comparisons, not the output),
realised as insertion sort with the reflexive descending comparison. -/
def pySortedDescByCount (routes : List (Sig × RouteInfo)) : List (Sig × RouteInfo) :=
  routes.insertionSort (fun a b => b.2.count ≤ a.2.count)

/-- The `unique_examples` loop of `_analyze_top_routes`: walk the token
list keeping the first token per `context→target` key, stopping once five
keys are collected (the size check runs after each potential insertion). -/
def uniqueExamplesAux : List TokenInfo → List String → List TokenInfo → List TokenInfo
  | [], _, acc => acc.reverse
  | t :: ts, keys, acc =>
    let k := t.context ++ "→" ++ t.target
    let keys2 := if k ∈ keys then keys else k :: keys
    let acc2 := if k ∈ keys then acc else t :: acc
    if 5 ≤ keys2.length then acc2.reverse else uniqueExamplesAux ts keys2 acc2

def uniqueExamples (tokens : List TokenInfo) : List TokenInfo :=
  uniqueExamplesAux tokens [] []

/-- One entry of the `top_routes` list returned by `_analyze_top_routes`. -/
structure TopRoute where
  signature : Sig
  count : ℕ
  coverage : ℚ
  avg_confidence : ℝ
  example_tokens : List TokenInfo

/-- The `_analyze_top_routes` operation: stable-sort the signatures by
occurrence count descending, take the top N, and report each with
`coverage = count / total` where `total` is the summed occurrence count
over ALL extracted routes (`0` if that total is zero). -/
def analyze_top_routes (routes : List (Sig × RouteInfo)) (top_n : ℕ) :
    List TopRoute :=
  let total_count : ℕ := (routes.map (fun si => si.2.count)).sum
  ((pySortedDescByCount routes).take top_n).map (fun si =>
    { signature := si.1
      count := si.2.count
      coverage := if 0 < total_count then (si.2.count : ℚ) / (total_count : ℚ) else 0
      avg_confidence := si.2.avg_confidence
      example_tokens := uniqueExamples si.2.tokens })

theorem orderedInsert_filter_count {α : Type} (f : α → ℕ) (c : ℕ) (a : α)
    (l : List α) :
    (l.orderedInsert (fun x y => f y ≤ f x) a).filter (fun x => decide (f x = c)) =
      if f a = c then a :: l.filter (fun x => decide (f x = c))
      else l.filter (fun x => decide (f x = c)) := by
  induction l with
  | nil => by_cases h : f a = c <;> simp [List.orderedInsert, h]
  | cons b t ih =>
    simp only [List.orderedInsert]
    by_cases hr : f b ≤ f a
    · rw [if_pos hr]
      by_cases h : f a = c <;> simp [List.filter_cons, h]
    · rw [if_neg hr]
      have hab : f a < f b := lt_of_not_le hr
      by_cases h : f a = c
      · have hbc : ¬ f b = c := by omega
        simp [List.filter_cons, ih, h, hbc]
      · by_cases hb : f b = c <;> simp [List.filter_cons, ih, h, hb]

theorem sortDescByCount_filter_count {α : Type} (f : α → ℕ) (c : ℕ)
    (l : List α) :
    (l.insertionSort (fun x y => f y ≤ f x)).filter (fun x => decide (f x = c)) =
      l.filter (fun x => decide (f x = c)) := by
  induction l with
  | nil => rfl
  | cons a t ih =>
    simp only [List.insertionSort]
    rw [orderedInsert_filter_count]
    by_cases h : f a = c <;> simp [h, ih]

theorem sortDescByCount_sorted {α : Type} (f : α → ℕ) (l : List α) :
    List.Sorted (fun x y => f y ≤ f x) (l.insertionSort (fun x y => f y ≤ f x)) := by
  haveI : IsTotal α (fun x y => f y ≤ f x) := ⟨fun a b => le_total _ _⟩
  haveI : IsTrans α (fun x y => f y ≤ f x) := ⟨fun _ _ _ h1 h2 => le_trans h2 h1⟩
  exact List.sorted_insertionSort _ _

/-- C3: top-N selection sorts the extracted routes by occurrence count
descending with ties broken by insertion order — for every count value,
the selected routes with that count form a prefix of the extracted routes
with that count, in their original order (stable sort, no secondary key) —
returns at most N routes, reports each route's coverage as its count
divided by the total count over all extracted routes, and returns nothing
when there are no routes (so no coverage is reported; the division guard
yields 0 exactly when the total is 0). -/
theorem top_routes_stable_sort_and_coverage (routes : List (Sig × RouteInfo))
    (n : ℕ) :
    (analyze_top_routes routes n).length ≤ n ∧
    List.Sorted (fun a b => b ≤ a)
      ((analyze_top_routes routes n).map TopRoute.count) ∧
    (∀ c : ℕ,
      ((analyze_top_routes routes n).map (fun t => (t.signature, t.count))).filter
          (fun p => decide (p.2 = c)) <+:
        (routes.map (fun si => (si.1, si.2.count))).filter
          (fun p => decide (p.2 = c))) ∧
    (∀ t ∈ analyze_top_routes routes n,
      t.coverage =
        if 0 < (routes.map (fun si => si.2.count)).sum then
          (t.count : ℚ) /
            (Nat.cast ((routes.map (fun si => si.2.count)).sum) : ℚ)
        else 0) ∧
    (routes = [] → analyze_top_routes routes n = []) := by
  refine ⟨?_, ?_, ?_, ?_, ?_⟩
  · calc (analyze_top_routes routes n).length
        = ((pySortedDescByCount routes).take n).length := by
          simp [analyze_top_routes]
      _ ≤ n := by simp
  · have hs : List.Sorted (fun x y => x.2.count ≥ y.2.count)
        (pySortedDescByCount routes) :=
      sortDescByCount_sorted (fun si => si.2.count) routes
    have ht : List.Sorted (fun x y => x.2.count ≥ y.2.count)
        ((pySortedDescByCount routes).take n) :=
      List.Pairwise.sublist (List.take_sublist n _) hs
    have hm := List.pairwise_map.mpr ht
    simp only [analyze_top_routes]
    rw [List.map_map]
    exact List.Pairwise.imp (fun h => h) hm
  · intro c
    simp only [analyze_top_routes]
    rw [List.map_map]
    have h1 : (((pySortedDescByCount routes).take n).map
          (fun si => (si.1, si.2.count))).filter (fun p => decide (p.2 = c)) =
        (((pySortedDescByCount routes).take n).filter
          (fun si => decide (si.2.count = c))).map (fun si => (si.1, si.2.count)) := by
      rw [List.filter_map]
      rfl
    have h2 : ((routes.map (fun si => (si.1, si.2.count))).filter
          (fun p => decide (p.2 = c))) =
        ((routes.filter (fun si => decide (si.2.count = c))).map
          (fun si => (si.1, si.2.count))) := by
      rw [List.filter_map]
      rfl
    have h3 : ((pySortedDescByCount routes).take n).filter
          (fun si => decide (si.2.count = c)) <+:
        (pySortedDescByCount routes).filter (fun si => decide (si.2.count = c)) :=
      (List.take_prefix n _).filter _
    have h4 : (pySortedDescByCount routes).filter
          (fun si => decide (si.2.count = c)) =
        routes.filter (fun si => decide (si.2.count = c)) :=
      sortDescByCount_filter_count (fun si => si.2.count) c routes
    have h5 := h3.map (fun si => (si.1, si.2.count))
    rw [h4] at h5
    calc (((pySortedDescByCount routes).take n).map
            (fun si : Sig × RouteInfo => (si.1, si.2.count))).filter
          (fun p => decide (p.2 = c))
        = (((pySortedDescByCount routes).take n).filter
            (fun si => decide (si.2.count = c))).map
              (fun si => (si.1, si.2.count)) := h1
      _ <+: (routes.filter (fun si => decide (si.2.count = c))).map
              (fun si => (si.1, si.2.count)) := h5
      _ = (routes.map (fun si : Sig × RouteInfo => (si.1, si.2.count))).filter
            (fun p => decide (p.2 = c)) := h2.symm
  · intro t ht
    simp only [analyze_top_routes, List.mem_map] at ht
    obtain ⟨si, _, rfl⟩ := ht
    rfl
  · intro h
    simp [analyze_top_routes, pySortedDescByCount, h]

/-- A small concrete route table used to instantiate the analysis
theorems. -/
noncomputable def demoRoutes : List (Sig × RouteInfo) :=
  [([(0, 1)], { tokens := [⟨"the", "cat", "p1"⟩], count := 1, avg_confidence := 0 }),
   ([(0, 2)], { tokens := [⟨"the", "dog", "p2"⟩, ⟨"a", "dog", "p3"⟩], count := 2,
                avg_confidence := 0 })]

/-- Witness for `top_routes_stable_sort_and_coverage` at the concrete
two-route table `demoRoutes` with `top_n = 1`. -/
theorem top_routes_stable_sort_and_coverage_witness :
    (analyze_top_routes demoRoutes 1).length ≤ 1 ∧
    List.Sorted (fun a b => b ≤ a)
      ((analyze_top_routes demoRoutes 1).map TopRoute.count) ∧
    (∀ c : ℕ,
      ((analyze_top_routes demoRoutes 1).map (fun t => (t.signature, t.count))).filter
          (fun p => decide (p.2 = c)) <+:
        (demoRoutes.map (fun si => (si.1, si.2.count))).filter
          (fun p => decide (p.2 = c))) ∧
    (∀ t ∈ analyze_top_routes demoRoutes 1,
      t.coverage =
        if 0 < (demoRoutes.map (fun si => si.2.count)).sum then
          (t.count : ℚ) /
            (Nat.cast ((demoRoutes.map (fun si => si.2.count)).sum) : ℚ)
        else 0) ∧
    (demoRoutes = [] → analyze_top_routes demoRoutes 1 = []) :=
  top_routes_stable_sort_and_coverage demoRoutes 1

/-! ### Highway signatures (`highway_signature` in `schemas/routing.py` and
the per-probe body of `_extract_target_routes`) -/

/-- One signature part `L<layer>E<expert>`. -/
def expertPart (layer eid : ℤ) : String :=
  "L" ++ toString layer ++ "E" ++ toString eid

/-- Python's `sorted(records, key=lambda r: r.layer)` (stable). -/
def sortByLayer (records : List RoutingRecord) : List RoutingRecord :=
  records.insertionSort (fun a b => a.layer ≤ b.layer)

/-- The consecutive-layer check of `highway_signature` over the sorted
record list: each layer must be the previous one plus one. -/
def consecutiveLayers : List RoutingRecord → Bool
  | [] => true
  | [_] => true
  | a :: b :: t => decide (b.layer = a.layer + 1) && consecutiveLayers (b :: t)

/-- The `highway_signature` function of `schemas/routing.py`: empty input
gives the empty signature, records are sorted by ascending layer, a
non-consecutive layer sequence raises `ValueError`, and otherwise the
`L<layer>E<top1>` parts are joined with the arrow separator. -/
def highway_signature (records : List RoutingRecord) : Except Unit String :=
  if records.isEmpty then Except.ok ""
  else
    let sorted := sortByLayer records
    if consecutiveLayers sorted then
      Except.ok (String.intercalate "→"
        (sorted.map (fun r => expertPart r.layer r.expert_top1_id)))
    else Except.error ()

/-- The per-probe signature computation inside `_extract_target_routes`:
keep the probe's target-position records at the requested window layers,
skip the probe (`none`) unless exactly one record per requested layer was
found, sort by layer, and delegate to `highway_signature`, whose
`ValueError` is caught (`except ValueError: continue`, again `none`).
(The source's call passes a `target_tokens_only` keyword that the routing
variant of `highway_signature` does not declare; the clustering twin
`cluster_highway_signature` does, and the records are already filtered to
the target position here, so the call is modelled as plain
`highway_signature`.) -/
def extractProbeSignature (probe_routing : List RoutingRecord)
    (window_layers : List ℤ) : Option String :=
  let target_routing := probe_routing.filter
    (fun r => decide (r.token_position = 1) && window_layers.contains r.layer)
  if target_routing.length ≠ window_layers.length then none
  else
    match highway_signature (sortByLayer target_routing) with
    | Except.ok s => some s
    | Except.error _ => none

/-- The layers a probe's records were captured at. -/
def capturedLayers (records : List RoutingRecord) : List ℤ :=
  records.map (fun r => r.layer)

theorem sortByLayer_perm (records : List RoutingRecord) :
    List.Perm (sortByLayer records) records :=
  List.perm_insertionSort _ _

theorem sortByLayer_sorted (records : List RoutingRecord) :
    List.Sorted (fun a b => a.layer ≤ b.layer) (sortByLayer records) := by
  haveI : IsTotal RoutingRecord (fun a b => a.layer ≤ b.layer) :=
    ⟨fun a b => le_total _ _⟩
  haveI : IsTrans RoutingRecord (fun a b => a.layer ≤ b.layer) :=
    ⟨fun _ _ _ h1 h2 => le_trans h1 h2⟩
  exact List.sorted_insertionSort _ _

theorem sortByLayer_eq_of_perm {l1 l2 : List RoutingRecord}
    (hperm : List.Perm l1 l2)
    (hnodup : ((l2.map (fun r => r.layer)).Nodup)) :
    sortByLayer l1 = sortByLayer l2 := by
  haveI : IsAntisymm RoutingRecord (fun a b => a.layer < b.layer) :=
    ⟨fun a b h1 h2 => absurd (lt_trans h1 h2) (lt_irrefl _)⟩
  have hp : List.Perm (sortByLayer l1) (sortByLayer l2) :=
    ((sortByLayer_perm l1).trans hperm).trans (sortByLayer_perm l2).symm
  have hne : ∀ l : List RoutingRecord, (l.map (fun r => r.layer)).Nodup →
      List.Pairwise (fun a b => a.layer ≠ b.layer) (sortByLayer l) := by
    intro l hl
    have h1 : ((sortByLayer l).map (fun r => r.layer)).Nodup :=
      (List.Perm.map (fun r => r.layer) (sortByLayer_perm l)).nodup_iff.mpr hl
    exact List.pairwise_map.mp h1
  have hnodup1 : ((l1.map (fun r => r.layer)).Nodup) :=
    (List.Perm.map (fun r => r.layer) hperm).nodup_iff.mpr hnodup
  have hs1 : List.Pairwise (fun a b => a.layer < b.layer) (sortByLayer l1) :=
    ((sortByLayer_sorted l1).and (hne l1 hnodup1)).imp
      (fun h => lt_of_le_of_ne h.1 h.2)
  have hs2 : List.Pairwise (fun a b => a.layer < b.layer) (sortByLayer l2) :=
    ((sortByLayer_sorted l2).and (hne l2 hnodup)).imp
      (fun h => lt_of_le_of_ne h.1 h.2)
  exact List.eq_of_perm_of_sorted hp hs1 hs2

/-- C6: over routing records carrying one target-position id assignment per
layer, the per-probe route-signature computation is invariant under any
permutation of the input record list (records are ordered by ascending
layer before the parts are joined with the arrow separator), and it fails
(the probe is skipped) whenever the requested window layers are not a
subset of the probe's captured layers. -/
theorem route_signature_determinism
    (records records2 : List RoutingRecord) (window : List ℤ)
    (hperm : List.Perm records2 records)
    (hnodup : ((records.filter (fun r => decide (r.token_position = 1))).map
      (fun r => r.layer)).Nodup) :
    extractProbeSignature records2 window = extractProbeSignature records window ∧
    (¬ (∀ l ∈ window, l ∈ capturedLayers records) →
      extractProbeSignature records window = none) := by
  set p : RoutingRecord → Bool :=
    fun r => decide (r.token_position = 1) && window.contains r.layer with hp
  have hsub : ∀ l : List RoutingRecord, List.Sublist (l.filter p)
      (l.filter (fun r => decide (r.token_position = 1))) := by
    intro l
    refine List.monotone_filter_right l (fun a ha => ?_)
    rw [hp] at ha
    simp only [Bool.and_eq_true] at ha
    exact ha.1
  have hnodupP : ((records.filter p).map (fun r => r.layer)).Nodup :=
    List.Nodup.sublist (List.Sublist.map _ (hsub records)) hnodup
  constructor
  · have hpf : List.Perm (records2.filter p) (records.filter p) :=
      hperm.filter p
    have heq : sortByLayer (records2.filter p) = sortByLayer (records.filter p) :=
      sortByLayer_eq_of_perm hpf hnodupP
    have hlen : (records2.filter p).length = (records.filter p).length :=
      hpf.length_eq
    simp only [extractProbeSignature, ← hp, hlen, heq]
  · intro hnotsub
    push_neg at hnotsub
    obtain ⟨l0, hl0win, hl0cap⟩ := hnotsub
    have hlt : (records.filter p).length < window.length := by
      have hmapsub : ∀ x ∈ (records.filter p).map (fun r => r.layer),
          x ∈ window.erase l0 := by
        intro x hx
        rw [List.mem_map] at hx
        obtain ⟨r, hr, rfl⟩ := hx
        have hrmem := List.mem_of_mem_filter hr
        have hrp := List.of_mem_filter hr
        rw [hp] at hrp
        simp only [Bool.and_eq_true] at hrp
        have hlayerwin : r.layer ∈ window := by
          simpa using hrp.2
        have hne : r.layer ≠ l0 := by
          intro hcontra
          apply hl0cap
          rw [← hcontra]
          exact List.mem_map.mpr ⟨r, hrmem, rfl⟩
        exact (List.mem_erase_of_ne hne).mpr hlayerwin
      have hsp : List.Subperm ((records.filter p).map (fun r => r.layer))
          (window.erase l0) :=
        List.Nodup.subperm hnodupP hmapsub
      have hlen1 : ((records.filter p).map (fun r => r.layer)).length ≤
          (window.erase l0).length := hsp.length_le
      have hlen2 : (window.erase l0).length = window.length - 1 :=
        List.length_erase_of_mem hl0win
      have hwinpos : 0 < window.length := List.length_pos.mpr
        (List.ne_nil_of_mem hl0win)
      rw [List.length_map] at hlen1
      omega
    simp only [extractProbeSignature, ← hp]
    rw [if_pos (by omega)]

/-- Witness for `route_signature_determinism`: two permutations of a
two-layer probe record set, with a window requesting a layer that was
never captured. -/
theorem route_signature_determinism_witness :
    (List.Perm [nearTop1Record] [nearTop1Record] ∧
      ((([nearTop1Record].filter
          (fun r => decide (r.token_position = 1))).map
        (fun r => r.layer)).Nodup)) ∧
    (extractProbeSignature [nearTop1Record] [5] =
      extractProbeSignature [nearTop1Record] [5] ∧
    (¬ (∀ l ∈ ([5] : List ℤ), l ∈ capturedLayers [nearTop1Record]) →
      extractProbeSignature [nearTop1Record] [5] = none)) :=
  ⟨⟨List.Perm.refl _, by simp [nearTop1Record]⟩,
   route_signature_determinism [nearTop1Record] [nearTop1Record] [5]
    (List.Perm.refl _) (by simp [nearTop1Record])⟩

/-! ### Route extraction (`_extract_target_routes` in
`expert_route_analysis.py`, `_extract_target_cluster_routes` in
`cluster_route_analysis.py`)

Route tables are Python dicts keyed by the signature string; both the
per-probe grouping dict and the routes dict are modelled as association
lists in insertion order, with signatures in parsed form (`Sig`). -/

/-- `np.mean` over a list of reals (callers below only apply it to
non-empty lists, matching the source). -/
noncomputable def rmean (l : List ℝ) : ℝ := l.sum / l.length

/-- The mutable per-signature entry of the `routes` defaultdict during
extraction: token list, count, and the `confidence_scores` list that is
averaged at the end. -/
structure RouteAcc where
  tokens : List TokenInfo
  count : ℕ
  confidence_scores : List ℝ

/-- One extraction step on the `routes` defaultdict at key `sig`: append
the probe's token entry (if any), increment the count, and push the
probe's confidence score.  A fresh key is appended at the end (dict
insertion order). -/
def routesUpdate (acc : List (Sig × RouteAcc)) (sig : Sig)
    (tok : List TokenInfo) (conf : ℝ) : List (Sig × RouteAcc) :=
  match acc with
  | [] => [(sig, { tokens := tok, count := 1, confidence_scores := [conf] })]
  | (s, a) :: t =>
    if s = sig then
      (s, { tokens := a.tokens ++ tok
            count := a.count + 1
            confidence_scores := a.confidence_scores ++ [conf] }) :: t
    else (s, a) :: routesUpdate t sig tok conf

/-- One step of the `routing_by_probe` grouping defaultdict: append the
record to its probe's list, creating the key at the end if new. -/
def groupAppend (acc : List (String × List RoutingRecord)) (k : String)
    (r : RoutingRecord) : List (String × List RoutingRecord) :=
  match acc with
  | [] => [(k, [r])]
  | (k2, rs) :: t =>
    if k2 = k then (k2, rs ++ [r]) :: t else (k2, rs) :: groupAppend t k r

/-- The `routing_by_probe` grouping dict of `_extract_target_routes`. -/
def groupByProbe (records : List RoutingRecord) :
    List (String × List RoutingRecord) :=
  records.foldl (fun acc r => groupAppend acc r.probe_id r) []

/-- The `token_by_probe` dict comprehension
`{t.probe_id: t for t in token_records}` read at a key: the LAST token
record with that probe id wins. -/
def tokenByProbe (token_records : List TokenRecord) (pid : String) :
    Option TokenRecord :=
  token_records.reverse.find? (fun t => decide (t.probe_id = pid))

/-- `highway_signature` in parsed form: identical control flow (empty
list, sort by layer, consecutive-layer `ValueError`), producing the
(layer, top-1 expert) sequence that the signature string encodes
injectively. -/
def highwaySigParsed (records : List RoutingRecord) : Except Unit Sig :=
  if records.isEmpty then Except.ok []
  else
    let sorted := sortByLayer records
    if consecutiveLayers sorted then
      Except.ok (sorted.map (fun r => (r.layer, r.expert_top1_id)))
    else Except.error ()

/-- The per-probe body of the extraction loop of
`_extract_target_routes`: filter to target-position records at window
layers, skip unless exactly one per window layer, sort, build the
signature (a `ValueError` from a non-consecutive window skips the probe),
append the probe's token entry when its token record exists, and push the
probe's mean routing confidence. -/
noncomputable def processProbeRoutes (token_records : List TokenRecord)
    (window : List ℤ) (acc : List (Sig × RouteAcc))
    (probe : String × List RoutingRecord) : List (Sig × RouteAcc) :=
  let target_routing := probe.2.filter
    (fun r => decide (r.token_position = 1) && window.contains r.layer)
  if target_routing.length ≠ window.length then acc
  else
    match highwaySigParsed (sortByLayer target_routing) with
    | Except.error _ => acc
    | Except.ok sig =>
      let tok := match tokenByProbe token_records probe.1 with
        | some t => [⟨t.context_text, t.target_text, probe.1⟩]
        | none => []
      let conf := rmean ((sortByLayer target_routing).map
        RoutingRecord.routing_confidence)
      routesUpdate acc sig tok conf

/-- The final per-signature averaging shared by both extraction
functions: `avg_confidence = np.mean(confidence_scores)`. -/
noncomputable def finishRoutes (acc : List (Sig × RouteAcc)) :
    List (Sig × RouteInfo) :=
  acc.map (fun sa => (sa.1,
    { tokens := sa.2.tokens
      count := sa.2.count
      avg_confidence := rmean sa.2.confidence_scores }))

/-- The `_extract_target_routes` operation of the expert route analysis. -/
noncomputable def extract_target_routes (routing_records : List RoutingRecord)
    (token_records : List TokenRecord) (window : List ℤ) :
    List (Sig × RouteInfo) :=
  finishRoutes
    ((groupByProbe routing_records).foldl (processProbeRoutes token_records window) [])

/-- The `(cluster_id, distance_to_centroid)` pair stored per probe per
layer by the clustering step. -/
structure ClusterInfo where
  cluster_id : ℤ
  distance_to_centroid : ℝ

/-- Reading the per-probe layer dict of `cluster_assignments` at a layer. -/
def lookupLayer (l : List (ℤ × ClusterInfo)) (layer : ℤ) : Option ClusterInfo :=
  (l.find? (fun p => decide (p.1 = layer))).map (fun p => p.2)

/-- The per-probe body of `_extract_target_cluster_routes`: skip the probe
unless it has a cluster assignment for every window layer, then walk
`sorted(window_layers)` building the `(layer, cluster_id)` signature and
the distance list, and push confidence `1 / (1 + mean distance)` (`0`
mean for an empty distance list). -/
noncomputable def processProbeClusters (token_records : List TokenRecord)
    (window : List ℤ) (acc : List (Sig × RouteAcc))
    (probe : String × List (ℤ × ClusterInfo)) : List (Sig × RouteAcc) :=
  if window.all (fun l => (lookupLayer probe.2 l).isSome) then
    let sortedWin := window.insertionSort (fun a b => a ≤ b)
    let infos := sortedWin.filterMap
      (fun l => (lookupLayer probe.2 l).map (fun ci => (l, ci)))
    let sig : Sig := infos.map (fun p => (p.1, p.2.cluster_id))
    let distances := infos.map (fun p => p.2.distance_to_centroid)
    let tok := match tokenByProbe token_records probe.1 with
      | some t => [⟨t.context_text, t.target_text, probe.1⟩]
      | none => []
    let avg_distance := if distances.isEmpty then 0 else rmean distances
    routesUpdate acc sig tok (1 / (1 + avg_distance))
  else acc

/-- The `_extract_target_cluster_routes` operation of the cluster route
analysis, over the `cluster_assignments` produced by the clustering
step. -/
noncomputable def extract_target_cluster_routes
    (cluster_assignments : List (String × List (ℤ × ClusterInfo)))
    (token_records : List TokenRecord) (window : List ℤ) :
    List (Sig × RouteInfo) :=
  finishRoutes
    (cluster_assignments.foldl (processProbeClusters token_records window) [])

theorem rmean_bounds (a b : ℝ) (l : List ℝ) (hne : l ≠ [])
    (h : ∀ x ∈ l, a ≤ x ∧ x ≤ b) : a ≤ rmean l ∧ rmean l ≤ b := by
  have hlen : 0 < (l.length : ℝ) := by
    exact_mod_cast List.length_pos.mpr hne
  constructor
  · rw [rmean, le_div_iff₀ hlen]
    have := List.card_nsmul_le_sum l a (fun x hx => (h x hx).1)
    rwa [nsmul_eq_mul, mul_comm] at this
  · rw [rmean, div_le_iff₀ hlen]
    have := List.sum_le_card_nsmul l b (fun x hx => (h x hx).2)
    rwa [nsmul_eq_mul, mul_comm] at this

theorem rmean_pos (l : List ℝ) (hne : l ≠ []) (h : ∀ x ∈ l, 0 < x) :
    0 < rmean l := by
  have hlen : 0 < (l.length : ℝ) := by
    exact_mod_cast List.length_pos.mpr hne
  exact div_pos (List.sum_pos l h hne) hlen

theorem rmean_nonneg (l : List ℝ) (h : ∀ x ∈ l, 0 ≤ x) : 0 ≤ rmean l :=
  div_nonneg (List.sum_nonneg h) (Nat.cast_nonneg _)

/-- Invariant carried through the extraction folds: every accumulated
signature has a non-empty confidence-score list whose members satisfy
`P`. -/
def ConfInv (P : ℝ → Prop) (acc : List (Sig × RouteAcc)) : Prop :=
  ∀ sa ∈ acc, sa.2.confidence_scores ≠ [] ∧ ∀ c ∈ sa.2.confidence_scores, P c

theorem routesUpdate_inv (P : ℝ → Prop) (sig : Sig) (tok : List TokenInfo)
    (conf : ℝ) (hconf : P conf) :
    ∀ acc : List (Sig × RouteAcc), ConfInv P acc →
      ConfInv P (routesUpdate acc sig tok conf) := by
  intro acc
  induction acc with
  | nil =>
    intro _ sa hsa
    rw [routesUpdate] at hsa
    rcases List.mem_singleton.mp hsa with rfl
    refine ⟨by simp, ?_⟩
    intro c hc
    rcases List.mem_singleton.mp hc with rfl
    exact hconf
  | cons hd t ih =>
    intro hacc sa hsa
    obtain ⟨s, a⟩ := hd
    rw [routesUpdate] at hsa
    by_cases hs : s = sig
    · rw [if_pos hs] at hsa
      rcases List.mem_cons.mp hsa with rfl | hmem
      · have hd2 := hacc (s, a) (List.mem_cons_self _ _)
        refine ⟨by simp, ?_⟩
        intro c hc
        rcases List.mem_append.mp hc with h1 | h1
        · exact hd2.2 c h1
        · rcases List.mem_singleton.mp h1 with rfl
          exact hconf
      · exact hacc sa (List.mem_cons_of_mem _ hmem)
    · rw [if_neg hs] at hsa
      rcases List.mem_cons.mp hsa with rfl | hmem
      · exact hacc (s, a) (List.mem_cons_self _ _)
      · exact ih (fun x hx => hacc x (List.mem_cons_of_mem _ hx)) sa hmem

theorem foldl_conf_inv {β : Type} (P : ℝ → Prop)
    (step : List (Sig × RouteAcc) → β → List (Sig × RouteAcc)) :
    ∀ (l : List β) (acc : List (Sig × RouteAcc)),
      (∀ acc2 b, b ∈ l → ConfInv P acc2 → ConfInv P (step acc2 b)) →
      ConfInv P acc → ConfInv P (l.foldl step acc) := by
  intro l
  induction l with
  | nil => intro acc _ hacc; exact hacc
  | cons b t ih =>
    intro acc hstep hacc
    exact ih (step acc b)
      (fun acc2 x hx => hstep acc2 x (List.mem_cons_of_mem _ hx))
      (hstep acc b (List.mem_cons_self _ _) hacc)

theorem finishRoutes_conf (P : ℝ → Prop) (acc : List (Sig × RouteAcc))
    (hacc : ConfInv P acc) (Q : ℝ → Prop)
    (hQ : ∀ l : List ℝ, l ≠ [] → (∀ c ∈ l, P c) → Q (rmean l)) :
    ∀ si ∈ finishRoutes acc, Q si.2.avg_confidence := by
  intro si hsi
  rw [finishRoutes, List.mem_map] at hsi
  obtain ⟨sa, hsa, rfl⟩ := hsi
  obtain ⟨hne, hall⟩ := hacc sa hsa
  exact hQ sa.2.confidence_scores hne hall

theorem groupAppend_values (acc : List (String × List RoutingRecord))
    (k : String) (r : RoutingRecord) :
    ∀ sa ∈ groupAppend acc k r, ∀ x ∈ sa.2,
      (∃ sa2 ∈ acc, x ∈ sa2.2) ∨ x = r := by
  induction acc with
  | nil =>
    intro sa hsa x hx
    rw [groupAppend] at hsa
    rcases List.mem_singleton.mp hsa with rfl
    rcases List.mem_singleton.mp hx with rfl
    exact Or.inr rfl
  | cons hd t ih =>
    intro sa hsa x hx
    obtain ⟨k2, rs⟩ := hd
    rw [groupAppend] at hsa
    by_cases hk : k2 = k
    · rw [if_pos hk] at hsa
      rcases List.mem_cons.mp hsa with rfl | hmem
      · rcases List.mem_append.mp hx with h1 | h1
        · exact Or.inl ⟨(k2, rs), List.mem_cons_self _ _, h1⟩
        · rcases List.mem_singleton.mp h1 with rfl
          exact Or.inr rfl
      · exact Or.inl ⟨sa, List.mem_cons_of_mem _ hmem, hx⟩
    · rw [if_neg hk] at hsa
      rcases List.mem_cons.mp hsa with rfl | hmem
      · exact Or.inl ⟨(k2, rs), List.mem_cons_self _ _, hx⟩
      · rcases ih sa hmem x hx with ⟨sa2, hsa2, hx2⟩ | h1
        · exact Or.inl ⟨sa2, List.mem_cons_of_mem _ hsa2, hx2⟩
        · exact Or.inr h1

theorem groupByProbe_values (recs : List RoutingRecord) :
    ∀ sa ∈ groupByProbe recs, ∀ x ∈ sa.2, x ∈ recs := by
  have hgen : ∀ (l : List RoutingRecord) (acc : List (String × List RoutingRecord)),
      (∀ sa ∈ acc, ∀ x ∈ sa.2, x ∈ recs) → (∀ r ∈ l, r ∈ recs) →
      ∀ sa ∈ l.foldl (fun a r => groupAppend a r.probe_id r) acc,
        ∀ x ∈ sa.2, x ∈ recs := by
    intro l
    induction l with
    | nil => intro acc hacc _ sa hsa x hx; exact hacc sa hsa x hx
    | cons r t ih =>
      intro acc hacc hl sa hsa x hx
      refine ih (groupAppend acc r.probe_id r) ?_
        (fun y hy => hl y (List.mem_cons_of_mem _ hy)) sa hsa x hx
      intro sa2 hsa2 y hy
      rcases groupAppend_values acc r.probe_id r sa2 hsa2 y hy with ⟨sa3, hsa3, hy3⟩ | heq
      · exact hacc sa3 hsa3 y hy3
      · rw [heq]
        exact hl r (List.mem_cons_self _ _)
  intro sa hsa x hx
  exact hgen recs [] (by simp) (fun r hr => hr) sa hsa x hx

theorem routing_confidence_bounds (r : RoutingRecord)
    (h : 0 ≤ r.gate_entropy ∧ r.gate_entropy ≤ Real.log 32) :
    0 ≤ r.routing_confidence ∧ r.routing_confidence ≤ 1 := by
  have hlog : 0 < Real.log 32 := Real.log_pos (by norm_num)
  simp only [RoutingRecord.routing_confidence]
  constructor
  · have : r.gate_entropy / Real.log 32 ≤ 1 :=
      (div_le_one hlog).mpr h.2
    linarith
  · have : 0 ≤ r.gate_entropy / Real.log 32 := div_nonneg h.1 (le_of_lt hlog)
    linarith

theorem processProbeRoutes_step (token_records : List TokenRecord)
    (window : List ℤ) (recs : List RoutingRecord) (hwin : window ≠ [])
    (he : ∀ r ∈ recs, 0 ≤ r.gate_entropy ∧ r.gate_entropy ≤ Real.log 32)
    (acc : List (Sig × RouteAcc)) (probe : String × List RoutingRecord)
    (hprobe : probe ∈ groupByProbe recs)
    (hacc : ConfInv (fun c => 0 ≤ c ∧ c ≤ 1) acc) :
    ConfInv (fun c => 0 ≤ c ∧ c ≤ 1)
      (processProbeRoutes token_records window acc probe) := by
  simp only [processProbeRoutes]
  by_cases hlen : (probe.2.filter (fun r =>
      decide (r.token_position = 1) && window.contains r.layer)).length ≠
      window.length
  · rw [if_pos hlen]
    exact hacc
  · rw [if_neg hlen]
    push_neg at hlen
    cases hsig : highwaySigParsed (sortByLayer (probe.2.filter (fun r =>
        decide (r.token_position = 1) && window.contains r.layer))) with
    | error e =>
      exact hacc
    | ok sig =>
      refine routesUpdate_inv _ _ _ _ ?_ acc hacc
      have hsortlen : (sortByLayer (probe.2.filter (fun r =>
          decide (r.token_position = 1) && window.contains r.layer))).length =
          window.length := by
        rw [(sortByLayer_perm _).length_eq]
        exact hlen
      have hne : ((sortByLayer (probe.2.filter (fun r =>
          decide (r.token_position = 1) && window.contains r.layer))).map
            RoutingRecord.routing_confidence) ≠ [] := by
        apply List.ne_nil_of_length_pos
        rw [List.length_map, hsortlen]
        exact List.length_pos.mpr hwin
      refine rmean_bounds 0 1 _ hne ?_
      intro x hx
      rw [List.mem_map] at hx
      obtain ⟨r, hr, rfl⟩ := hx
      have hr1 : r ∈ probe.2.filter (fun r =>
          decide (r.token_position = 1) && window.contains r.layer) :=
        (List.mem_insertionSort _).mp hr
      have hr2 : r ∈ probe.2 := List.mem_of_mem_filter hr1
      have hr3 : r ∈ recs := groupByProbe_values recs probe hprobe r hr2
      exact routing_confidence_bounds r (he r hr3)

theorem processProbeClusters_step (token_records : List TokenRecord)
    (window : List ℤ)
    (assignments : List (String × List (ℤ × ClusterInfo)))
    (hd : ∀ pa ∈ assignments, ∀ lc ∈ pa.2, 0 ≤ lc.2.distance_to_centroid)
    (acc : List (Sig × RouteAcc)) (probe : String × List (ℤ × ClusterInfo))
    (hprobe : probe ∈ assignments)
    (hacc : ConfInv (fun c => 0 < c ∧ c ≤ 1) acc) :
    ConfInv (fun c => 0 < c ∧ c ≤ 1)
      (processProbeClusters token_records window acc probe) := by
  simp only [processProbeClusters]
  by_cases hall : window.all (fun l => (lookupLayer probe.2 l).isSome) = true
  · rw [if_pos hall]
    refine routesUpdate_inv _ _ _ _ ?_ acc hacc
    have hdist : ∀ x ∈ ((window.insertionSort (fun a b => a ≤ b)).filterMap
        (fun l => (lookupLayer probe.2 l).map (fun ci => (l, ci)))).map
          (fun p => p.2.distance_to_centroid), 0 ≤ x := by
      intro x hx
      rw [List.mem_map] at hx
      obtain ⟨info, hinfo, rfl⟩ := hx
      rw [List.mem_filterMap] at hinfo
      obtain ⟨l, _, hl⟩ := hinfo
      cases hlk : lookupLayer probe.2 l with
      | none => rw [hlk] at hl; simp at hl
      | some ci =>
        rw [hlk] at hl
        have hinfo2 : info = (l, ci) := by
          simpa using hl.symm
        simp only [lookupLayer] at hlk
        cases hfind : probe.2.find? (fun p => decide (p.1 = l)) with
        | none => rw [hfind] at hlk; simp at hlk
        | some pair =>
          rw [hfind] at hlk
          have hpair2 : pair.2 = ci := by
            simpa using hlk
          have hmem := List.mem_of_find?_eq_some hfind
          have hd2 := hd probe hprobe pair hmem
          rw [hinfo2]
          simp only [← hpair2]
          exact hd2
    set avg := (if (((window.insertionSort (fun a b => a ≤ b)).filterMap
        (fun l => (lookupLayer probe.2 l).map (fun ci => (l, ci)))).map
          (fun p => p.2.distance_to_centroid)).isEmpty then (0 : ℝ)
      else rmean (((window.insertionSort (fun a b => a ≤ b)).filterMap
        (fun l => (lookupLayer probe.2 l).map (fun ci => (l, ci)))).map
          (fun p => p.2.distance_to_centroid))) with havg
    have havg0 : 0 ≤ avg := by
      rw [havg]
      by_cases hemp : (((window.insertionSort (fun a b => a ≤ b)).filterMap
          (fun l => (lookupLayer probe.2 l).map (fun ci => (l, ci)))).map
            (fun p => p.2.distance_to_centroid)).isEmpty = true
      · rw [if_pos hemp]
      · rw [if_neg hemp]
        exact rmean_nonneg _ hdist
    have h1 : (0 : ℝ) < 1 + avg := by linarith
    exact ⟨div_pos one_pos h1, (div_le_one h1).mpr (by linarith)⟩
  · rw [if_neg hall]
    exact hacc

theorem top_routes_coverage_bounds (routes : List (Sig × RouteInfo)) (n : ℕ) :
    ∀ t ∈ analyze_top_routes routes n, 0 ≤ t.coverage ∧ t.coverage ≤ 1 := by
  intro t ht
  simp only [analyze_top_routes, List.mem_map] at ht
  obtain ⟨si, hsi, rfl⟩ := ht
  show 0 ≤ (if 0 < (routes.map (fun si => si.2.count)).sum then
      (si.2.count : ℚ) / (Nat.cast ((routes.map (fun si => si.2.count)).sum) : ℚ)
      else 0) ∧
    (if 0 < (routes.map (fun si => si.2.count)).sum then
      (si.2.count : ℚ) / (Nat.cast ((routes.map (fun si => si.2.count)).sum) : ℚ)
      else 0) ≤ 1
  by_cases hpos : 0 < (routes.map (fun si => si.2.count)).sum
  · rw [if_pos hpos]
    have hmem : si ∈ routes := by
      have h1 := List.take_subset n (pySortedDescByCount routes) hsi
      exact (List.mem_insertionSort _).mp h1
    have hle : si.2.count ≤ (routes.map (fun si => si.2.count)).sum :=
      List.single_le_sum (fun x _ => Nat.zero_le x) _
        (List.mem_map.mpr ⟨si, hmem, rfl⟩)
    have hposq : (0 : ℚ) < (Nat.cast ((routes.map (fun si => si.2.count)).sum) : ℚ) := by
      exact_mod_cast hpos
    constructor
    · exact div_nonneg (by positivity) (le_of_lt hposq)
    · rw [div_le_one hposq]
      exact_mod_cast hle
  · rw [if_neg hpos]
    exact ⟨le_refl 0, zero_le_one⟩

/-- C7 (amended): for every non-empty route set returned by route
extraction and top-N selection, each route's coverage lies in [0, 1] and
each cluster route's average confidence (`1 / (1 + mean
distance-to-centroid)`) lies in (0, 1] whenever the recorded distances are
non-negative (they are norms or the 0.0 default); each expert route's
average routing confidence (`1 − gate_entropy / log 32`) lies in [0, 1]
whenever every record's stored gate entropy lies in [0, log 32] — a bound
that `create_routing_record` does NOT guarantee: the entropy
`-Σ w·log(w + 1e-8)` of a one-hot weight vector is negative, pushing the
confidence above 1 (see the counterexample). -/
theorem route_coverage_confidence_bounds :
    (∀ (routes : List (Sig × RouteInfo)) (n : ℕ),
      ∀ t ∈ analyze_top_routes routes n, 0 ≤ t.coverage ∧ t.coverage ≤ 1) ∧
    (∀ (assignments : List (String × List (ℤ × ClusterInfo)))
        (token_records : List TokenRecord) (window : List ℤ),
      (∀ pa ∈ assignments, ∀ lc ∈ pa.2, 0 ≤ lc.2.distance_to_centroid) →
      ∀ si ∈ extract_target_cluster_routes assignments token_records window,
        0 < si.2.avg_confidence ∧ si.2.avg_confidence ≤ 1) ∧
    (∀ (recs : List RoutingRecord) (token_records : List TokenRecord)
        (window : List ℤ), window ≠ [] →
      (∀ r ∈ recs, 0 ≤ r.gate_entropy ∧ r.gate_entropy ≤ Real.log 32) →
      ∀ si ∈ extract_target_routes recs token_records window,
        0 ≤ si.2.avg_confidence ∧ si.2.avg_confidence ≤ 1) := by
  refine ⟨top_routes_coverage_bounds, ?_, ?_⟩
  · intro assignments token_records window hd si hsi
    rw [extract_target_cluster_routes] at hsi
    refine finishRoutes_conf (fun c => 0 < c ∧ c ≤ 1) _ ?_
      (fun c => 0 < c ∧ c ≤ 1) ?_ si hsi
    · refine foldl_conf_inv _ _ assignments [] ?_ (by intro sa hsa; simp at hsa)
      intro acc2 probe hprobe hacc2
      exact processProbeClusters_step token_records window assignments hd
        acc2 probe hprobe hacc2
    · intro l hne hall
      refine ⟨rmean_pos l hne (fun c hc => (hall c hc).1), ?_⟩
      exact (rmean_bounds 0 1 l hne
        (fun c hc => ⟨le_of_lt (hall c hc).1, (hall c hc).2⟩)).2
  · intro recs token_records window hwin he si hsi
    rw [extract_target_routes] at hsi
    refine finishRoutes_conf (fun c => 0 ≤ c ∧ c ≤ 1) _ ?_
      (fun c => 0 ≤ c ∧ c ≤ 1) ?_ si hsi
    · refine foldl_conf_inv _ _ (groupByProbe recs) [] ?_
        (by intro sa hsa; simp at hsa)
      intro acc2 probe hprobe hacc2
      exact processProbeRoutes_step token_records window recs hwin he
        acc2 probe hprobe hacc2
    · intro l hne hall
      exact rmean_bounds 0 1 l hne hall

/-- Witness for `route_coverage_confidence_bounds`: the coverage part at
`demoRoutes`, the cluster part at a single probe with one zero-distance
assignment, the routing part at the valid record `nearTop1Record` (stored
gate entropy 0). -/
theorem route_coverage_confidence_bounds_witness :
    ((∀ pa ∈ [("p1", [((0 : ℤ), ClusterInfo.mk 0 0)])],
        ∀ lc ∈ pa.2, 0 ≤ lc.2.distance_to_centroid) ∧
      (([0] : List ℤ) ≠ []) ∧
      (∀ r ∈ [nearTop1Record], 0 ≤ r.gate_entropy ∧
        r.gate_entropy ≤ Real.log 32)) ∧
    ((∀ t ∈ analyze_top_routes demoRoutes 2, 0 ≤ t.coverage ∧ t.coverage ≤ 1) ∧
     (∀ si ∈ extract_target_cluster_routes [("p1", [((0 : ℤ), ClusterInfo.mk 0 0)])]
        [] [0], 0 < si.2.avg_confidence ∧ si.2.avg_confidence ≤ 1) ∧
     (∀ si ∈ extract_target_routes [nearTop1Record] [] [0],
        0 ≤ si.2.avg_confidence ∧ si.2.avg_confidence ≤ 1)) := by
  have hd : ∀ pa ∈ [("p1", [((0 : ℤ), ClusterInfo.mk 0 0)])],
      ∀ lc ∈ pa.2, 0 ≤ lc.2.distance_to_centroid := by
    intro pa hpa lc hlc
    rcases List.mem_singleton.mp hpa with rfl
    rcases List.mem_singleton.mp hlc with rfl
    exact le_refl 0
  have he : ∀ r ∈ [nearTop1Record], 0 ≤ r.gate_entropy ∧
      r.gate_entropy ≤ Real.log 32 := by
    intro r hr
    rcases List.mem_singleton.mp hr with rfl
    exact ⟨le_refl 0, Real.log_nonneg (by norm_num)⟩
  exact ⟨⟨hd, by simp, he⟩,
    route_coverage_confidence_bounds.1 demoRoutes 2,
    route_coverage_confidence_bounds.2.1 _ [] [0] hd,
    route_coverage_confidence_bounds.2.2 [nearTop1Record] [] [0] (by simp) he⟩

/-- The one-hot routing weight vector: all mass on expert 0. -/
def oneHotWeights : List ℚ := 1 :: List.replicate 31 0

/-- The record `create_routing_record` builds from `oneHotWeights` at
layer 0, target position. -/
noncomputable def oneHotRecord : RoutingRecord :=
  { probe_id := "p"
    layer := 0
    token_position := 1
    expert_top4_ids := (top4Indices oneHotWeights).map (fun i => Int.ofNat i)
    expert_top4_weights := (top4Indices oneHotWeights).map
      (fun i => oneHotWeights.getD i 0)
    expert_top1_id := ((top4Indices oneHotWeights).map (fun i => Int.ofNat i)).getD 0 0
    expert_top1_weight := ((top4Indices oneHotWeights).map
      (fun i => oneHotWeights.getD i 0)).getD 0 0
    gate_entropy := gate_entropy_of oneHotWeights
    routing_aux_loss := 0 }

theorem oneHotRecord_entropy_neg : oneHotRecord.gate_entropy < 0 := by
  show gate_entropy_of oneHotWeights < 0
  have hlog : (0 : ℝ) < Real.log (1 + 1 / 100000000) := by
    apply Real.log_pos
    norm_num
  have hsum : ((oneHotWeights.map
      (fun w : ℚ => (Rat.cast w : ℝ) *
        Real.log ((Rat.cast w : ℝ) + 1 / 100000000))).sum) =
      Real.log (1 + 1 / 100000000) := by
    rw [oneHotWeights]
    rw [List.map_cons, List.map_replicate, List.sum_cons, List.sum_replicate]
    push_cast
    rw [one_mul, zero_mul, smul_zero, add_zero]
  rw [gate_entropy_of, hsum]
  linarith

theorem rmean_singleton (x : ℝ) : rmean [x] = x := by
  simp [rmean]

theorem oneHotRecord_confidence_gt_one : 1 < oneHotRecord.routing_confidence := by
  have hneg := oneHotRecord_entropy_neg
  have hlog : 0 < Real.log 32 := Real.log_pos (by norm_num)
  simp only [RoutingRecord.routing_confidence]
  have hq : oneHotRecord.gate_entropy / Real.log 32 < 0 :=
    div_neg_of_neg_of_pos hneg hlog
  linarith

/-- Counterexample to C7 as stated: run the full pipeline — a record
built by `create_routing_record` from the one-hot weight vector, route
extraction over the one-layer window, top-N selection — and the single
returned route's average confidence exceeds 1, because the computed gate
entropy `-Σ w·log(w + 1e-8)` of a one-hot distribution is negative. -/
theorem route_confidence_exceeds_one :
    create_routing_record "p" 0 1 oneHotWeights 0 = some oneHotRecord ∧
    (∃ si ∈ extract_target_routes [oneHotRecord]
        [TokenRecord.mk "p" "the" "cat" 1 2] [0],
      1 < si.2.avg_confidence) ∧
    (∃ t ∈ analyze_top_routes
        (extract_target_routes [oneHotRecord]
          [TokenRecord.mk "p" "the" "cat" 1 2] [0]) 20,
      1 < t.avg_confidence) := by
  have hext : extract_target_routes [oneHotRecord]
      [TokenRecord.mk "p" "the" "cat" 1 2] [0] =
      [([((0 : ℤ), oneHotRecord.expert_top1_id)],
        { tokens := [TokenInfo.mk "the" "cat" "p"]
          count := 1
          avg_confidence := rmean [rmean
            [RoutingRecord.routing_confidence oneHotRecord]] })] := rfl
  have hconf : rmean [rmean [RoutingRecord.routing_confidence oneHotRecord]] =
      oneHotRecord.routing_confidence := by
    rw [rmean_singleton, rmean_singleton]
  refine ⟨?_, ?_, ?_⟩
  · unfold create_routing_record
    rw [if_neg (by simp [oneHotWeights])]
    rfl
  · rw [hext]
    refine ⟨_, List.mem_singleton_self _, ?_⟩
    show (1 : ℝ) < rmean [rmean [RoutingRecord.routing_confidence oneHotRecord]]
    rw [hconf]
    exact oneHotRecord_confidence_gt_one
  · have hmap : (analyze_top_routes (extract_target_routes [oneHotRecord]
        [TokenRecord.mk "p" "the" "cat" 1 2] [0]) 20).map TopRoute.avg_confidence =
        [rmean [rmean [RoutingRecord.routing_confidence oneHotRecord]]] := by
      rw [hext]
      rfl
    have hv : rmean [rmean [RoutingRecord.routing_confidence oneHotRecord]] ∈
        (analyze_top_routes (extract_target_routes [oneHotRecord]
          [TokenRecord.mk "p" "the" "cat" 1 2] [0]) 20).map TopRoute.avg_confidence := by
      rw [hmap]
      exact List.mem_singleton_self _
    obtain ⟨t, ht, heq⟩ := List.mem_map.mp hv
    refine ⟨t, ht, ?_⟩
    show (1 : ℝ) < TopRoute.avg_confidence t
    rw [heq, hconf]
    exact oneHotRecord_confidence_gt_one

/-! ### Expert details (`get_expert_details` in `expert_route_analysis.py`) -/

/-- The capture manifest as consumed by the analysis engine: the two
category-assignment dicts, read with `dict.get(word, [])` (so they are
modelled as total functions defaulting to `[]`; the code's truthiness
guard on an absent/empty dict coincides with the all-keys-empty
function). -/
structure CaptureManifest where
  context_category_assignments : String → List String
  target_category_assignments : String → List String

/-- A `{"context", "target"}` token entry of `get_expert_details`. -/
structure WordPair where
  context : String
  target : String
deriving DecidableEq

/-- `np.mean` over rational weights. -/
def qmean (l : List ℚ) : ℚ := l.sum / l.length

/-- The `_get_category_breakdown` counts: for each category, how many of
the given tokens carry it (once per occurrence in the word's label list),
for context and target words respectively; no manifest gives the empty
breakdown. -/
def category_breakdown_counts (tokens : List WordPair)
    (manifest : Option CaptureManifest) : (String → ℕ) × (String → ℕ) :=
  match manifest with
  | none => (fun _ => 0, fun _ => 0)
  | some m =>
    (fun c => (tokens.map
        (fun t => (m.context_category_assignments t.context).count c)).sum,
     fun c => (tokens.map
        (fun t => (m.target_category_assignments t.target).count c)).sum)

/-- The result record of `get_expert_details`. -/
structure ExpertDetails where
  layer : ℤ
  expert_id : ℤ
  node_name : String
  tokens : List WordPair
  total_tokens : ℕ
  usage_rate : ℚ
  avg_confidence : ℚ
  category_breakdown : (String → ℕ) × (String → ℕ)

/-- One step of the record scan of `get_expert_details`: a record at the
requested layer, target position, and top-1 expert contributes its
probe's token pair (looked up as the FIRST matching token record, Python's
`next(...)`) and its top-1 weight; records whose probe has no token record
contribute to neither list. -/
def expertScanStep (token_records : List TokenRecord) (layer expert_id : ℤ)
    (acc : List WordPair × List ℚ) (r : RoutingRecord) :
    List WordPair × List ℚ :=
  if r.layer = layer ∧ r.token_position = 1 ∧ r.expert_top1_id = expert_id then
    match token_records.find? (fun t => decide (t.probe_id = r.probe_id)) with
    | some t => (acc.1 ++ [WordPair.mk t.context_text t.target_text],
                 acc.2 ++ [r.expert_top1_weight])
    | none => acc
  else acc

/-- The `get_expert_details` operation: scan all routing records for the
given (layer, expert), then report the first 20 token pairs as a sample,
the full match count, the usage rate over all target-position records at
that layer, the mean top-1 weight, and the category breakdown over ALL
matching tokens. -/
def get_expert_details (routing_records : List RoutingRecord)
    (token_records : List TokenRecord) (manifest : Option CaptureManifest)
    (layer expert_id : ℤ) : ExpertDetails :=
  let acc := routing_records.foldl (expertScanStep token_records layer expert_id)
    ([], [])
  let total_target_tokens := (routing_records.filter (fun r =>
    decide (r.token_position = 1) && decide (r.layer = layer))).length
  { layer := layer
    expert_id := expert_id
    node_name := "L" ++ toString layer ++ "E" ++ toString expert_id
    tokens := acc.1.take 20
    total_tokens := acc.1.length
    usage_rate := if 0 < total_target_tokens then
        (acc.1.length : ℚ) / (Nat.cast total_target_tokens : ℚ) else 0
    avg_confidence := if acc.2.isEmpty then 0 else qmean acc.2
    category_breakdown := category_breakdown_counts acc.1 manifest }

/-- Specification-side view of the matching records: the (token pair,
top-1 weight) list collected by the scan, as a single `filterMap`. -/
def expertMatches (routing_records : List RoutingRecord)
    (token_records : List TokenRecord) (layer expert_id : ℤ) :
    List (WordPair × ℚ) :=
  routing_records.filterMap (fun r =>
    if r.layer = layer ∧ r.token_position = 1 ∧ r.expert_top1_id = expert_id then
      (token_records.find? (fun t => decide (t.probe_id = r.probe_id))).map
        (fun t => (WordPair.mk t.context_text t.target_text,
                   r.expert_top1_weight))
    else none)

theorem expert_fold_spec (token_records : List TokenRecord)
    (layer expert_id : ℤ) :
    ∀ (recs : List RoutingRecord) (acc : List WordPair × List ℚ),
      recs.foldl (expertScanStep token_records layer expert_id) acc =
        (acc.1 ++ (expertMatches recs token_records layer expert_id).map Prod.fst,
         acc.2 ++ (expertMatches recs token_records layer expert_id).map Prod.snd) := by
  intro recs
  induction recs with
  | nil => intro acc; simp [expertMatches]
  | cons r t ih =>
    intro acc
    rw [List.foldl_cons, ih]
    by_cases hcond : r.layer = layer ∧ r.token_position = 1 ∧
        r.expert_top1_id = expert_id
    · cases hfind : token_records.find? (fun t => decide (t.probe_id = r.probe_id)) with
      | none =>
        simp only [expertScanStep, expertMatches, List.filterMap_cons,
          if_pos hcond, hfind]
        simp
      | some tk =>
        simp only [expertScanStep, expertMatches, List.filterMap_cons,
          if_pos hcond, hfind]
        simp [List.append_assoc]
    · simp only [expertScanStep, expertMatches, List.filterMap_cons, if_neg hcond]

/-- C10: `get_expert_details` returns at most 20 token entries — the first
20 matching target-position probes in record order — while
`total_tokens`, `usage_rate` and `avg_confidence` are computed over ALL
matching probes, so `total_tokens` can exceed the length of the returned
token list (last conjunct: a concrete 21-match input where it does). -/
theorem expert_details_token_cap
    (routing_records : List RoutingRecord) (token_records : List TokenRecord)
    (manifest : Option CaptureManifest) (layer expert_id : ℤ) :
    ((get_expert_details routing_records token_records manifest layer
        expert_id).tokens =
      ((expertMatches routing_records token_records layer expert_id).map
        Prod.fst).take 20) ∧
    ((get_expert_details routing_records token_records manifest layer
        expert_id).tokens.length ≤ 20) ∧
    ((get_expert_details routing_records token_records manifest layer
        expert_id).total_tokens =
      (expertMatches routing_records token_records layer expert_id).length) ∧
    ((get_expert_details routing_records token_records manifest layer
        expert_id).usage_rate =
      (if 0 < (routing_records.filter (fun r =>
          decide (r.token_position = 1) && decide (r.layer = layer))).length then
        ((expertMatches routing_records token_records layer expert_id).length : ℚ) /
          (Nat.cast ((routing_records.filter (fun r =>
            decide (r.token_position = 1) && decide (r.layer = layer))).length) : ℚ)
      else 0)) ∧
    ((get_expert_details routing_records token_records manifest layer
        expert_id).avg_confidence =
      (if expertMatches routing_records token_records layer expert_id = [] then 0
       else qmean ((expertMatches routing_records token_records layer
          expert_id).map Prod.snd))) ∧
    (∃ (recs : List RoutingRecord) (toks : List TokenRecord),
      (get_expert_details recs toks none 0 0).tokens.length <
        (get_expert_details recs toks none 0 0).total_tokens) := by
  have hfold := expert_fold_spec token_records layer expert_id routing_records
    ([], [])
  simp only [List.nil_append] at hfold
  refine ⟨?_, ?_, ?_, ?_, ?_, ?_⟩
  · show (routing_records.foldl (expertScanStep token_records layer expert_id)
        ([], [])).1.take 20 = _
    rw [hfold]
  · show (((routing_records.foldl (expertScanStep token_records layer expert_id)
        ([], [])).1.take 20).length) ≤ 20
    rw [List.length_take]
    omega
  · show (routing_records.foldl (expertScanStep token_records layer expert_id)
        ([], [])).1.length = _
    rw [hfold]
    exact List.length_map _ _
  · show (if 0 < (routing_records.filter (fun r =>
        decide (r.token_position = 1) && decide (r.layer = layer))).length then
        (((routing_records.foldl (expertScanStep token_records layer expert_id)
          ([], [])).1.length : ℚ)) /
          (Nat.cast ((routing_records.filter (fun r =>
            decide (r.token_position = 1) && decide (r.layer = layer))).length) : ℚ)
      else 0) = _
    rw [hfold]
    simp only [List.length_map]
  · show (if (routing_records.foldl (expertScanStep token_records layer expert_id)
        ([], [])).2.isEmpty then 0
      else qmean (routing_records.foldl (expertScanStep token_records layer
        expert_id) ([], [])).2) = _
    rw [hfold]
    by_cases hemp : expertMatches routing_records token_records layer expert_id = []
    · rw [hemp]
      simp
    · rw [if_neg ?hc, if_neg hemp]
      case hc =>
        simp only [List.isEmpty_iff, List.map_eq_nil_iff]
        exact hemp
  · refine ⟨List.replicate 21 nearTop1Record,
      [TokenRecord.mk "p" "x" "y" 0 0], ?_⟩
    decide


/-! ### Clustering step (`_perform_clustering` in `cluster_route_analysis.py`)

The sklearn estimators are external collaborators; they enter the model as
oracle functions returning the label vector (and, for k-means, the
cluster centres). -/

/-- `schemas/features_pca128.py`: the dimensionality-reduced feature
record. -/
structure PCAFeatureRecord where
  probe_id : String
  layer : ℤ
  token_position : ℤ
  pca128 : List ℚ
deriving DecidableEq

/-- The recognized clustering request payload: `clustering_method`,
`layer_cluster_counts` and `pca_dimensions`, as read by
`_perform_clustering` via `clustering_config.get(...)`. -/
structure ClusteringConfig where
  clustering_method : String
  layer_cluster_counts : List (ℤ × ℕ)
  pca_dimensions : ℕ
deriving DecidableEq

/-- The sklearn estimators used by `_perform_clustering`, as oracles:
`KMeans(n_clusters, random_state=1, n_init=10).fit_predict` plus
`cluster_centers_`, `AgglomerativeClustering(n_clusters).fit_predict`, and
`DBSCAN(eps, min_samples).fit_predict`. -/
structure ClusterImpl where
  kmeans : ℕ → List (List ℚ) → List ℤ × List (List ℚ)
  hierarchical : ℕ → List (List ℚ) → List ℤ
  dbscan : ℚ → ℕ → List (List ℚ) → List ℤ

/-- `np.linalg.norm(x - c)`: the euclidean distance between a feature
vector and a centre. -/
noncomputable def vecNorm (v w : List ℚ) : ℝ :=
  Real.sqrt ((v.zipWith (fun a b => (Rat.cast (a - b) : ℝ) ^ 2) w).sum)

/-- One step of the `pca_by_layer` grouping defaultdict. -/
def pcaGroupAppend (acc : List (ℤ × List PCAFeatureRecord)) (k : ℤ)
    (r : PCAFeatureRecord) : List (ℤ × List PCAFeatureRecord) :=
  match acc with
  | [] => [(k, [r])]
  | (k2, rs) :: t =>
    if k2 = k then (k2, rs ++ [r]) :: t else (k2, rs) :: pcaGroupAppend t k r

/-- The `pca_by_layer` grouping of `_perform_clustering`: target-position
records only, grouped by layer in first-appearance order. -/
def pca_by_layer (records : List PCAFeatureRecord) :
    List (ℤ × List PCAFeatureRecord) :=
  (records.filter (fun r => decide (r.token_position = 1))).foldl
    (fun acc r => pcaGroupAppend acc r.layer r) []

def lookupPcaGroup (acc : List (ℤ × List PCAFeatureRecord)) (layer : ℤ) :
    Option (List PCAFeatureRecord) :=
  (acc.find? (fun p => decide (p.1 = layer))).map (fun p => p.2)

/-- The `_perform_clustering` operation.  For each window layer: skip
silently when the layer has no target-position records; build the feature
matrix truncated to `pca_dimensions`; despite reading
`layer_cluster_counts` from the config, cluster with the HARDCODED
`n_clusters = 4` (the read value is a dead store in the source); dispatch
on the method (`kmeans` with centres, `hierarchical`, `dbscan` with fixed
`eps=0.5`/`min_samples=5`, anything else raises inside the per-layer
`try` and the layer is skipped — so one layer's failure does not abort the
others); record `(cluster_id, distance_to_centroid)` per probe for the
layer, the distance being the norm to the centre when centres exist and
the label is non-negative, else `0.0`.  The nested
`cluster_assignments[probe][layer]` dict is flattened to
`((probe_id, layer), info)` pairs in insertion order. -/
noncomputable def perform_clustering (impl : ClusterImpl)
    (pca_records : List PCAFeatureRecord) (window_layers : List ℤ)
    (config : ClusteringConfig) : List ((String × ℤ) × ClusterInfo) :=
  let byLayer := pca_by_layer pca_records
  let method := config.clustering_method
  let layer_cluster_counts := config.layer_cluster_counts
  let pca_dims := config.pca_dimensions
  window_layers.foldl (fun assignments layer =>
    match lookupPcaGroup byLayer layer with
    | none => assignments
    | some layer_records =>
      let n_clusters := 4
      let X := layer_records.map (fun r => r.pca128.take pca_dims)
      if X.isEmpty then assignments
      else
        match (if method = "kmeans" then
                some (impl.kmeans n_clusters X, true)
              else if method = "hierarchical" then
                some ((impl.hierarchical n_clusters X, []), false)
              else if method = "dbscan" then
                some ((impl.dbscan (1 / 2) 5 X, []), false)
              else none) with
        | none => assignments
        | some (result, hasCentroids) =>
          assignments ++ (layer_records.zip result.1).map (fun rl =>
            ((rl.1.probe_id, layer),
             { cluster_id := rl.2
               distance_to_centroid :=
                 if hasCentroids ∧ 0 ≤ rl.2 then
                   vecNorm (rl.1.pca128.take pca_dims)
                     (result.2.getD rl.2.toNat [])
                 else 0 }))) []

/-- C8 (code evaluation): the clustering step's output does not depend on
`layer_cluster_counts` at all — the config value is read into a local
variable and never used; every method runs with the hardcoded cluster
count 4 — contradicting the claim that the per-layer configured cluster
count is used.  (The silent skip of empty layers and the per-layer
failure isolation ARE implemented, as the embedded definition shows.) -/
theorem perform_clustering_ignores_layer_cluster_counts
    (impl : ClusterImpl) (pca_records : List PCAFeatureRecord)
    (window : List ℤ) (c1 c2 : ClusteringConfig)
    (hm : c1.clustering_method = c2.clustering_method)
    (hp : c1.pca_dimensions = c2.pca_dimensions) :
    perform_clustering impl pca_records window c1 =
      perform_clustering impl pca_records window c2 := by
  obtain ⟨m1, l1, p1⟩ := c1
  obtain ⟨m2, l2, p2⟩ := c2
  simp only at hm hp
  subst hm
  subst hp
  rfl

/-- A trivial deterministic estimator set used to instantiate the
clustering theorem. -/
def constImpl : ClusterImpl :=
  { kmeans := fun _ X => (X.map (fun _ => 0), [])
    hierarchical := fun _ X => X.map (fun _ => 0)
    dbscan := fun _ _ X => X.map (fun _ => 0) }

/-- Witness for `perform_clustering_ignores_layer_cluster_counts`: the
same k-means request once with `layer_cluster_counts = {0: 7}` and once
with no configured counts gives identical assignments. -/
theorem perform_clustering_ignores_layer_cluster_counts_witness :
    ((ClusteringConfig.mk "kmeans" [(0, 7)] 128).clustering_method =
      (ClusteringConfig.mk "kmeans" [] 128).clustering_method ∧
     (ClusteringConfig.mk "kmeans" [(0, 7)] 128).pca_dimensions =
      (ClusteringConfig.mk "kmeans" [] 128).pca_dimensions) ∧
    perform_clustering constImpl
        [PCAFeatureRecord.mk "p" 0 1 [1, 2]] [0]
        (ClusteringConfig.mk "kmeans" [(0, 7)] 128) =
      perform_clustering constImpl
        [PCAFeatureRecord.mk "p" 0 1 [1, 2]] [0]
        (ClusteringConfig.mk "kmeans" [] 128) :=
  ⟨⟨rfl, rfl⟩,
   perform_clustering_ignores_layer_cluster_counts constImpl
    [PCAFeatureRecord.mk "p" 0 1 [1, 2]] [0]
    (ClusteringConfig.mk "kmeans" [(0, 7)] 128)
    (ClusteringConfig.mk "kmeans" [] 128) rfl rfl⟩

/-! ### Sankey node construction (`_build_sankey_data` in
`expert_route_analysis.py`; the cluster variant is line-for-line the same
with cluster ids in place of expert ids)

Only the node-construction half of `_build_sankey_data` is embedded here
(the claims under verification concern the nodes; links are built from the
same `transitions`/`token_lookup` state).  Signature strings are split and
re-parsed by the source; with parsed signatures the split is the
identity. -/

/-- The per-token category list used by `_build_sankey_data`:
`manifest.target_category_assignments.get(target, [])`, filtered to the
active `target_categories` filter when one is present and non-empty. -/
def filteredTargetCats (manifest : CaptureManifest)
    (fc : Option (List String)) (target : String) : List String :=
  let cats := manifest.target_category_assignments target
  match fc with
  | some l => if l ≠ [] then cats.filter (fun c => decide (c ∈ l)) else cats
  | none => cats

/-- All (layer, id) parts over the retained signatures, with
multiplicity. -/
def nodeParts (routes : List (Sig × RouteInfo)) : List (ℤ × ℤ) :=
  routes.flatMap (fun si => si.1)

/-- The node iteration order: `for layer in sorted(layer_experts) for
expert in sorted(layer_experts[layer])` — the distinct parts in
lexicographic order. -/
def nodeKeys (routes : List (Sig × RouteInfo)) : List (ℤ × ℤ) :=
  (nodeParts routes).dedup.insertionSort
    (fun p q => p.1 < q.1 ∨ (p.1 = q.1 ∧ p.2 ≤ q.2))

/-- The flat list of category-label occurrences recorded for a node: one
entry per (occurrence of the part in a retained signature, token of that
route, retained label of the token's target word), in iteration order —
the multiset underlying the `expert_tokens[part]` dict. -/
def catOccurrences (routes : List (Sig × RouteInfo))
    (manifest : CaptureManifest) (fc : Option (List String)) (p : ℤ × ℤ) :
    List String :=
  routes.flatMap (fun si =>
    (si.1.filter (fun q => decide (q = p))).flatMap (fun _ =>
      si.2.tokens.flatMap (fun t => filteredTargetCats manifest fc t.target)))

/-- The token list accumulated at `expert_tokens[part][category]`: each
route token appended once per occurrence of the category among its
retained labels, per occurrence of the part in the signature. -/
def catTokens (routes : List (Sig × RouteInfo)) (manifest : CaptureManifest)
    (fc : Option (List String)) (p : ℤ × ℤ) (c : String) : List TokenInfo :=
  routes.flatMap (fun si =>
    (si.1.filter (fun q => decide (q = p))).flatMap (fun _ =>
      si.2.tokens.flatMap (fun t =>
        ((filteredTargetCats manifest fc t.target).filter
          (fun c2 => decide (c2 = c))).map (fun _ => t))))

/-- A Sankey node as built by `_build_sankey_data`: identity, the summed
`token_count`, and the per-category `category_distribution` (the further
presentation fields — dominant categories, specialization string, axis
distributions, context-target samples — are derived from
`category_distribution` only and are not needed by the claims). -/
structure SankeyNode where
  layer : ℤ
  expert_id : ℤ
  token_count : ℕ
  category_distribution : List (String × ℕ)

/-- The node-construction half of `_build_sankey_data`: one node per
distinct (layer, id) of the retained signatures, in sorted order, with
`category_distribution[cat] = len(expert_tokens[node][cat])` and
`token_count` the sum of those per-category list lengths. -/
def build_sankey_nodes (routes : List (Sig × RouteInfo))
    (manifest : CaptureManifest) (fc : Option (List String)) :
    List SankeyNode :=
  (nodeKeys routes).map (fun p =>
    let keys := (catOccurrences routes manifest fc p).dedup
    let dist := keys.map (fun c => (c, (catTokens routes manifest fc p c).length))
    { layer := p.1
      expert_id := p.2
      token_count := (dist.map Prod.snd).sum
      category_distribution := dist })

/-- Reading a node's `category_distribution` dict at a category, 0 when
absent. -/
def lookupCount (dist : List (String × ℕ)) (c : String) : ℕ :=
  ((dist.find? (fun e => decide (e.1 = c))).map Prod.snd).getD 0

/-- Following the spec's words ("total token count routed through it"):
the number of contributing tokens of the routes whose signature visits the
node — each token counted once. -/
def specTokenCountThroughNode (routes : List (Sig × RouteInfo))
    (p : ℤ × ℤ) : ℕ :=
  ((routes.filter (fun si => decide (p ∈ si.1))).map
    (fun si => si.2.tokens.length)).sum

/-- A one-route table whose only token's target word carries two category
labels. -/
noncomputable def cexRoutes : List (Sig × RouteInfo) :=
  [([(0, 1), (1, 2)],
    { tokens := [TokenInfo.mk "the" "cat" "p1"]
      count := 1
      avg_confidence := 0 })]

def cexManifest : CaptureManifest :=
  { context_category_assignments := fun _ => []
    target_category_assignments := fun w =>
      if w = "cat" then ["nouns", "animals"] else [] }

/-- Counterexample to C2 as stated: with a single retained route
`L0E1→L1E2` carrying one token whose target word "cat" has the two labels
"nouns" and "animals" (and no active filter), each node's `token_count`
is 2 although exactly 1 token is routed through it — the code's
`token_count` sums the per-category counts, so a multi-label token is
counted once per label, not once. -/
theorem sankey_token_count_counterexample :
    (build_sankey_nodes cexRoutes cexManifest none).map
      (fun n => (n.layer, n.expert_id, n.token_count)) =
      [(0, 1, 2), (1, 2, 2)] ∧
    specTokenCountThroughNode cexRoutes (0, 1) = 1 ∧
    specTokenCountThroughNode cexRoutes (1, 2) = 1 := by
  refine ⟨?_, by decide, by decide⟩
  decide

theorem catTokens_length_core (manifest : CaptureManifest)
    (fc : Option (List String)) (c : String) :
    ∀ tokens : List TokenInfo,
      (tokens.flatMap (fun t =>
        ((filteredTargetCats manifest fc t.target).filter
          (fun c2 => decide (c2 = c))).map (fun _ => t))).length =
      ((tokens.flatMap (fun t => filteredTargetCats manifest fc t.target)).filter
        (fun x => decide (x = c))).length := by
  intro tokens
  induction tokens with
  | nil => rfl
  | cons t ts ih =>
    simp only [List.flatMap_cons, List.filter_append, List.length_append,
      List.length_map, ih]

theorem catTokens_length_sig (manifest : CaptureManifest)
    (fc : Option (List String)) (c : String) (T : List TokenInfo) :
    ∀ q : List (ℤ × ℤ),
      (q.flatMap (fun _ => T.flatMap (fun t =>
        ((filteredTargetCats manifest fc t.target).filter
          (fun c2 => decide (c2 = c))).map (fun _ => t)))).length =
      ((q.flatMap (fun _ => T.flatMap
        (fun t => filteredTargetCats manifest fc t.target))).filter
          (fun x => decide (x = c))).length := by
  intro q
  induction q with
  | nil => rfl
  | cons a q2 ih =>
    simp only [List.flatMap_cons, List.filter_append, List.length_append, ih,
      catTokens_length_core manifest fc c T]

theorem catTokens_length_eq (routes : List (Sig × RouteInfo))
    (manifest : CaptureManifest) (fc : Option (List String)) (p : ℤ × ℤ)
    (c : String) :
    (catTokens routes manifest fc p c).length =
      ((catOccurrences routes manifest fc p).filter
        (fun x => decide (x = c))).length := by
  induction routes with
  | nil => rfl
  | cons si rest ih =>
    simp only [catTokens, catOccurrences, List.flatMap_cons, List.filter_append,
      List.length_append] at ih ⊢
    rw [ih, catTokens_length_sig manifest fc c si.2.tokens]

theorem catTokens_length_eq_count (routes : List (Sig × RouteInfo))
    (manifest : CaptureManifest) (fc : Option (List String)) (p : ℤ × ℤ)
    (c : String) :
    (catTokens routes manifest fc p c).length =
      (catOccurrences routes manifest fc p).count c := by
  rw [catTokens_length_eq, List.count, List.countP_eq_length_filter]
  congr 1

theorem find?_map_keys (f : String → ℕ) :
    ∀ (keys : List String) (c : String), c ∈ keys →
      (keys.map (fun k => (k, f k))).find? (fun e => decide (e.1 = c)) =
        some (c, f c) := by
  intro keys
  induction keys with
  | nil => intro c h; simp at h
  | cons k ks ih =>
    intro c hc
    by_cases hk : k = c
    · subst hk
      simp [List.find?]
    · rw [List.map_cons, List.find?_cons_of_neg _ (by simp [hk])]
      rcases List.mem_cons.mp hc with h1 | h1
      · exact absurd h1.symm hk
      · exact ih c h1

theorem find?_map_keys_none (f : String → ℕ) (keys : List String) (c : String)
    (hc : c ∉ keys) :
    (keys.map (fun k => (k, f k))).find? (fun e => decide (e.1 = c)) = none := by
  rw [List.find?_eq_none]
  intro e he
  rw [List.mem_map] at he
  obtain ⟨k, hk, rfl⟩ := he
  simp only [decide_eq_true_eq]
  intro hkc
  exact hc (hkc ▸ hk)

/-- C2 (amended): the graph contains exactly one node per distinct
(layer, id) pair appearing in any retained top-N route signature; each
node's per-category count equals the number of category-label occurrences
recorded for it — each contributing token's target-word labels looked up
in the Manifest and intersected with the active category filter, counted
once per retained label occurrence — and the node's `token_count` is the
SUM of those per-category counts (so a token with several retained labels
is counted once per label and a token with none is not counted), rather
than the number of distinct tokens routed through the node. -/
theorem sankey_nodes_per_distinct_part (routes : List (Sig × RouteInfo))
    (manifest : CaptureManifest) (fc : Option (List String)) :
    ((build_sankey_nodes routes manifest fc).map
      (fun n => (n.layer, n.expert_id))).Nodup ∧
    (∀ p : ℤ × ℤ,
      p ∈ (build_sankey_nodes routes manifest fc).map
        (fun n => (n.layer, n.expert_id)) ↔ ∃ si ∈ routes, p ∈ si.1) ∧
    (∀ n ∈ build_sankey_nodes routes manifest fc, ∀ c : String,
      lookupCount n.category_distribution c =
        (catOccurrences routes manifest fc (n.layer, n.expert_id)).count c) ∧
    (∀ n ∈ build_sankey_nodes routes manifest fc,
      n.token_count =
        (catOccurrences routes manifest fc (n.layer, n.expert_id)).length) := by
  have hmapkeys : (build_sankey_nodes routes manifest fc).map
      (fun n => (n.layer, n.expert_id)) = nodeKeys routes := by
    simp only [build_sankey_nodes, List.map_map]
    show (nodeKeys routes).map (fun p => (p.1, p.2)) = nodeKeys routes
    simp
  refine ⟨?_, ?_, ?_, ?_⟩
  · rw [hmapkeys]
    exact (List.perm_insertionSort _ _).nodup_iff.mpr
      (List.nodup_dedup _)
  · intro p
    rw [hmapkeys]
    rw [nodeKeys, List.mem_insertionSort, List.mem_dedup, nodeParts,
      List.mem_flatMap]
  · intro n hn c
    simp only [build_sankey_nodes, List.mem_map] at hn
    obtain ⟨p, hp, rfl⟩ := hn
    show lookupCount (((catOccurrences routes manifest fc p).dedup).map
        (fun c2 => (c2, (catTokens routes manifest fc p c2).length))) c =
      (catOccurrences routes manifest fc (p.1, p.2)).count c
    rw [Prod.mk.eta]
    by_cases hc : c ∈ (catOccurrences routes manifest fc p).dedup
    · rw [lookupCount, find?_map_keys _ _ c hc]
      show (catTokens routes manifest fc p c).length = _
      exact catTokens_length_eq_count routes manifest fc p c
    · rw [lookupCount, find?_map_keys_none _ _ c hc]
      show 0 = (catOccurrences routes manifest fc p).count c
      rw [List.mem_dedup] at hc
      exact (List.count_eq_zero.mpr hc).symm
  · intro n hn
    simp only [build_sankey_nodes, List.mem_map] at hn
    obtain ⟨p, hp, rfl⟩ := hn
    show ((((catOccurrences routes manifest fc p).dedup).map
        (fun c2 => (c2, (catTokens routes manifest fc p c2).length))).map
          Prod.snd).sum = (catOccurrences routes manifest fc (p.1, p.2)).length
    rw [Prod.mk.eta, List.map_map]
    have hcongr : (((catOccurrences routes manifest fc p).dedup).map
        (Prod.snd ∘ (fun c2 => (c2, (catTokens routes manifest fc p c2).length)))) =
        (((catOccurrences routes manifest fc p).dedup).map
          (fun c2 => (catOccurrences routes manifest fc p).count c2)) := by
      refine List.map_congr_left ?_
      intro c2 _
      exact catTokens_length_eq_count routes manifest fc p c2
    rw [hcongr]
    exact List.sum_map_count_dedup_eq_length _

/-- Witness for `sankey_nodes_per_distinct_part` at the concrete
two-label counterexample input. -/
theorem sankey_nodes_per_distinct_part_witness :
    ((build_sankey_nodes cexRoutes cexManifest none).map
      (fun n => (n.layer, n.expert_id))).Nodup ∧
    (∀ p : ℤ × ℤ,
      p ∈ (build_sankey_nodes cexRoutes cexManifest none).map
        (fun n => (n.layer, n.expert_id)) ↔ ∃ si ∈ cexRoutes, p ∈ si.1) ∧
    (∀ n ∈ build_sankey_nodes cexRoutes cexManifest none, ∀ c : String,
      lookupCount n.category_distribution c =
        (catOccurrences cexRoutes cexManifest none (n.layer, n.expert_id)).count c) ∧
    (∀ n ∈ build_sankey_nodes cexRoutes cexManifest none,
      n.token_count =
        (catOccurrences cexRoutes cexManifest none (n.layer, n.expert_id)).length) :=
  sankey_nodes_per_distinct_part cexRoutes cexManifest none

end ConceptMRI
